import Mathlib

/-!
Shallow embedding of the room/voting lifecycle and results-aggregation
subsystem of the MovieZangTV repository.

The backend functions are Convex query/mutation handlers over a
schema-defined document store (`src/convex/schema.ts`).  We embed the
store as explicit lists of records (insertion order = storage order,
matching `withIndex(...).first()` / `.collect()` lookups), document ids
as natural numbers handed out by a `nextId` counter, and each mutation
as a state-passing function `DB → args → (Except Err ret) × DB` whose
writes happen in the textual order of the handler (a handler that
patches and then throws returns the patched store together with the
error).  Query handlers perform no writes in the source, so they are
embedded as pure functions of the store.  JS numbers used as timestamps
and as `maxParticipants` are embedded as `Int`; `Math.random()` draws
are embedded as exact rationals in `[0,1)`.
-/

namespace MovieZang

/-- Room status union from `schema.ts`: `"active" | "completed" | "expired"`. -/
inductive Status where
  | active
  | completed
  | expired
deriving DecidableEq, Repr

/-- Vote type union from `schema.ts`: `"like" | "dislike"`. -/
inductive VoteType where
  | like
  | dislike
deriving DecidableEq, Repr

/-- A `rooms` document (`schema.ts`).  `id` embeds the Convex `_id`. -/
structure Room where
  id : Nat
  code : String
  category : String
  hostId : String
  status : Status
  expiresAt : Int
  maxParticipants : Int
  createdAt : Int
deriving DecidableEq, Repr

/-- A `roomParticipants` document (`schema.ts`). -/
structure RoomParticipant where
  id : Nat
  roomId : Nat
  participantId : String
  joinedAt : Int
  votingCompletedAt : Option Int
deriving DecidableEq, Repr

/-- A `votes` document (`schema.ts`). -/
structure VoteRow where
  id : Nat
  roomId : Nat
  movieId : Nat
  participantId : String
  voteType : VoteType
  votedAt : Int
deriving DecidableEq, Repr

/-- The slice of the Convex store the claims are about.  Movie documents
are created outside this core and none of their fields is read by the
embedded functions (`ctx.db.get(movieId)` is only tested for `null` /
passed through), so the `movies` table is embedded as the list of ids of
the stored movie documents. -/
structure DB where
  rooms : List Room
  roomParticipants : List RoomParticipant
  votes : List VoteRow
  movies : List Nat
  nextId : Nat
deriving DecidableEq, Repr

/-- The empty store. -/
def DB.empty : DB := ⟨[], [], [], [], 0⟩

/-- Error taxonomy: one constructor per distinct `throw new Error(...)`
message of the embedded handlers. -/
inductive Err where
  /-- `"Room not found"` -/
  | roomNotFound
  /-- `"Movie not found"` -/
  | movieNotFound
  /-- `` `Room is ${room.status}` `` -/
  | roomNotActive (s : Status)
  /-- `"Room has expired"` -/
  | roomExpired
  /-- `"Not a participant in this room"` -/
  | notParticipant
  /-- `"Participant not found in room"` -/
  | participantNotFound
  /-- `"Already joined this room"` -/
  | alreadyJoined
  /-- `"Room is full"` -/
  | roomFull
  /-- `"Failed to generate unique room code"` -/
  | roomCreationError
  /-- `"Voting already completed"` -/
  | alreadyCompleted
deriving DecidableEq, Repr

/-- Spec §7 groups `"Room not found"` and `"Movie not found"` under
`NotFoundError`. -/
def Err.isNotFoundError : Err → Bool
  | .roomNotFound => true
  | .movieNotFound => true
  | _ => false

instance {ε α : Type} [DecidableEq ε] [DecidableEq α] : DecidableEq (Except ε α)
  | .ok a, .ok b =>
    if h : a = b then .isTrue (congrArg Except.ok h)
    else .isFalse (fun hc => h (Except.ok.inj hc))
  | .ok _, .error _ => .isFalse Except.noConfusion
  | .error _, .ok _ => .isFalse Except.noConfusion
  | .error e, .error f =>
    if h : e = f then .isTrue (congrArg Except.error h)
    else .isFalse (fun hc => h (Except.error.inj hc))

/-- `ctx.db.patch(roomId, { status })`: update the status of the room
document with the given id. -/
def patchRoomStatus (rooms : List Room) (roomId : Nat) (s : Status) : List Room :=
  rooms.map (fun r => if r.id = roomId then { r with status := s } else r)

/-- `ctx.db.patch(participantId, { votingCompletedAt })`. -/
def patchCompletion (parts : List RoomParticipant) (pid : Nat) (t : Option Int) :
    List RoomParticipant :=
  parts.map (fun p => if p.id = pid then { p with votingCompletedAt := t } else p)

/-- `ctx.db.patch(voteId, { voteType, votedAt })`. -/
def patchVoteRow (votes : List VoteRow) (vid : Nat) (vt : VoteType) (now : Int) :
    List VoteRow :=
  votes.map (fun v => if v.id = vid then { v with voteType := vt, votedAt := now } else v)

/-- `ctx.db.get(roomId)` on the `rooms` table. -/
def findRoom (db : DB) (roomId : Nat) : Option Room :=
  db.rooms.find? (fun r => decide (r.id = roomId))

/-- `query("roomParticipants").withIndex("by_room").collect()`. -/
def roomParts (db : DB) (roomId : Nat) : List RoomParticipant :=
  db.roomParticipants.filter (fun p => decide (p.roomId = roomId))

/-- `query("votes").withIndex("by_room").collect()`. -/
def roomVotes (db : DB) (roomId : Nat) : List VoteRow :=
  db.votes.filter (fun v => decide (v.roomId = roomId))

/-- `withIndex("by_room").filter(participantId).first()`. -/
def findParticipant (db : DB) (roomId : Nat) (participantId : String) : Option RoomParticipant :=
  (roomParts db roomId).find? (fun p => decide (p.participantId = participantId))

/-- `Math.round(num / den * 100)`-style rounding of the exact rational
`num / den` (`den > 0`): JavaScript `Math.round x = ⌊x + 1/2⌋`, which for
nonnegative `num / den` is `(2 * num + den) / (2 * den)` in `Nat`
division. -/
def jsRound (num den : Nat) : Nat := (2 * num + den) / (2 * den)

/-! ## Room lifecycle (rooms segment of `src/convex/presence.ts`) -/

/-- Numeric value in `generateRoomCode`:
`Math.floor(1000 + Math.random() * 9000)` with the `Math.random()` draw
`r ∈ [0,1)` made explicit. -/
def generateRoomCodeVal (r : ℚ) : Int := ⌊(1000 : ℚ) + r * 9000⌋

/-- `generateRoomCode(): string` — the decimal string of the drawn value. -/
def generateRoomCode (r : ℚ) : String := toString (generateRoomCodeVal r)

/-- `query("rooms").withIndex("by_code", code).first() !== null`. -/
def hasCode (rooms : List Room) (code : String) : Bool :=
  rooms.any (fun r => decide (r.code = code))

/-- The `while (attempts < 10)` retry loop of `createRoom`: keep the
current candidate code if it is unused, otherwise regenerate and count
the collision.  The impure `generateRoomCode()` calls are embedded as
the stream `gen` of their successive return values, so the candidate
examined with `attempts = i` is `gen i`; the code-allocation theorem
instantiates `gen` with `fun i => generateRoomCode (rand i)` for a
stream `rand` of `Math.random()` draws.  The guard `attempts < 10` is
carried as the structural fuel `10 - attempts`. -/
def codeLoop (rooms : List Room) (gen : Nat → String) :
    Nat → String → Nat → String × Nat
  | 0, code, attempts => (code, attempts)
  | fuel + 1, code, attempts =>
    if hasCode rooms code then
      codeLoop rooms gen fuel (gen (attempts + 1)) (attempts + 1)
    else (code, attempts)

/-- `createRoom` mutation.  Returns `{ roomId, code }` on success; the
room is inserted with `status = "active"`, `expiresAt = now + 24h`,
`maxParticipants` defaulting to 10, and the host is inserted as the
first participant. -/
def createRoom (db : DB) (category hostId : String) (maxParticipants : Option Int)
    (gen : Nat → String) (now : Int) : Except Err (Nat × String) × DB :=
  let cl := codeLoop db.rooms gen 10 (gen 0) 0
  if cl.2 = 10 then (.error .roomCreationError, db)
  else
    let room : Room :=
      { id := db.nextId, code := cl.1, category := category, hostId := hostId,
        status := .active, expiresAt := now + 24 * 60 * 60 * 1000,
        maxParticipants := maxParticipants.getD 10, createdAt := now }
    let host : RoomParticipant :=
      { id := db.nextId + 1, roomId := db.nextId, participantId := hostId,
        joinedAt := now, votingCompletedAt := none }
    (.ok (room.id, cl.1),
     { db with rooms := db.rooms ++ [room],
               roomParticipants := db.roomParticipants ++ [host],
               nextId := db.nextId + 2 })

/-- `getRoomByCode` query: pure read; overrides `status` to `"expired"`
in the response when `expiresAt < now` and the stored status is
`"active"`, without writing. -/
def getRoomByCode (db : DB) (code : String) (now : Int) : Option Room :=
  match db.rooms.find? (fun r => decide (r.code = code)) with
  | none => none
  | some room =>
    if room.expiresAt < now ∧ room.status = .active then some { room with status := .expired }
    else some room

/-- `getRoom` query: same lazy-expiry projection keyed by room id. -/
def getRoom (db : DB) (roomId : Nat) (now : Int) : Option Room :=
  match findRoom db roomId with
  | none => none
  | some room =>
    if room.expiresAt < now ∧ room.status = .active then some { room with status := .expired }
    else some room

/-- `joinRoom` mutation. -/
def joinRoom (db : DB) (roomId : Nat) (participantId : String) (now : Int) :
    Except Err Unit × DB :=
  match findRoom db roomId with
  | none => (.error .roomNotFound, db)
  | some room =>
    if room.status ≠ .active then (.error (.roomNotActive room.status), db)
    else if room.expiresAt < now then
      (.error .roomExpired, { db with rooms := patchRoomStatus db.rooms room.id .expired })
    else
      match findParticipant db roomId participantId with
      | some _ => (.error .alreadyJoined, db)
      | none =>
        let participantCount := (roomParts db roomId).length
        if room.maxParticipants ≤ (participantCount : Int) then (.error .roomFull, db)
        else
          (.ok (),
           { db with
               roomParticipants := db.roomParticipants ++
                 [{ id := db.nextId, roomId := roomId, participantId := participantId,
                    joinedAt := now, votingCompletedAt := none }],
               nextId := db.nextId + 1 })

/-- `joinRoomByCode` mutation: identical checks, with the room looked up
by its code. -/
def joinRoomByCode (db : DB) (roomCode : String) (participantId : String) (now : Int) :
    Except Err (Nat × String) × DB :=
  match db.rooms.find? (fun r => decide (r.code = roomCode)) with
  | none => (.error .roomNotFound, db)
  | some room =>
    if room.status ≠ .active then (.error (.roomNotActive room.status), db)
    else if room.expiresAt < now then
      (.error .roomExpired, { db with rooms := patchRoomStatus db.rooms room.id .expired })
    else
      match findParticipant db room.id participantId with
      | some _ => (.error .alreadyJoined, db)
      | none =>
        let participantCount := (roomParts db room.id).length
        if room.maxParticipants ≤ (participantCount : Int) then (.error .roomFull, db)
        else
          (.ok (room.id, room.code),
           { db with
               roomParticipants := db.roomParticipants ++
                 [{ id := db.nextId, roomId := room.id, participantId := participantId,
                    joinedAt := now, votingCompletedAt := none }],
               nextId := db.nextId + 1 })

/-- `leaveRoom` mutation: delete the membership row; if the room is now
empty, patch `status = "completed"`. -/
def leaveRoom (db : DB) (roomId : Nat) (participantId : String) :
    Except Err Unit × DB :=
  match findParticipant db roomId participantId with
  | none => (.error .notParticipant, db)
  | some participant =>
    let db1 : DB :=
      { db with roomParticipants := db.roomParticipants.filter (fun p => decide (p.id ≠ participant.id)) }
    if (roomParts db1 roomId).length = 0 then
      (.ok (), { db1 with rooms := patchRoomStatus db1.rooms roomId .completed })
    else (.ok (), db1)

namespace Presence

/-- `markVotingComplete` mutation of `src/convex/presence.ts`: rejects a
double completion.  The guard is JS truthiness of
`participant.votingCompletedAt`, which a stored timestamp `0` fails. -/
def markVotingComplete (db : DB) (roomId : Nat) (participantId : String) (now : Int) :
    Except Err Unit × DB :=
  match findParticipant db roomId participantId with
  | none => (.error .notParticipant, db)
  | some participant =>
    if (match participant.votingCompletedAt with | none => false | some t => decide (t ≠ 0)) then
      (.error .alreadyCompleted, db)
    else
      (.ok (),
       { db with roomParticipants := patchCompletion db.roomParticipants participant.id (some now) })

end Presence

/-! ## Voting (`src/unnamed/part_004`, a Convex `voting` module) -/

namespace Voting

/-- `markVotingComplete` mutation of the voting module: silently
overwrites `votingCompletedAt` with the current time. -/
def markVotingComplete (db : DB) (roomId : Nat) (participantName : String) (now : Int) :
    Except Err Unit × DB :=
  match findParticipant db roomId participantName with
  | none => (.error .participantNotFound, db)
  | some participant =>
    (.ok (),
     { db with roomParticipants := patchCompletion db.roomParticipants participant.id (some now) })

end Voting

/-- `resetVotingCompletion` mutation: clears `votingCompletedAt`. -/
def resetVotingCompletion (db : DB) (roomId : Nat) (participantId : String) :
    Except Err Unit × DB :=
  match findParticipant db roomId participantId with
  | none => (.error .participantNotFound, db)
  | some participant =>
    (.ok (),
     { db with roomParticipants := patchCompletion db.roomParticipants participant.id none })

/-- `submitVote` mutation. -/
def submitVote (db : DB) (roomId movieId : Nat) (participantId : String)
    (voteType : VoteType) (now : Int) : Except Err (Nat × Bool) × DB :=
  match findRoom db roomId with
  | none => (.error .roomNotFound, db)
  | some room =>
    if room.status ≠ .active then (.error (.roomNotActive room.status), db)
    else if room.expiresAt < now then
      (.error .roomExpired, { db with rooms := patchRoomStatus db.rooms room.id .expired })
    else
      match findParticipant db roomId participantId with
      | none => (.error .notParticipant, db)
      | some _ =>
        if movieId ∈ db.movies then
          match (roomVotes db roomId).find?
              (fun v => decide (v.movieId = movieId) && decide (v.participantId = participantId)) with
          | some existingVote =>
            (.ok (existingVote.id, true),
             { db with votes := patchVoteRow db.votes existingVote.id voteType now })
          | none =>
            (.ok (db.nextId, false),
             { db with
                 votes := db.votes ++
                   [{ id := db.nextId, roomId := roomId, movieId := movieId,
                      participantId := participantId, voteType := voteType, votedAt := now }],
                 nextId := db.nextId + 1 })
        else (.error .movieNotFound, db)

/-! ## Results aggregation (`src/unnamed/part_004`) -/

/-- Accumulator entry of the `votes.reduce` grouping in `getResults`:
per-movie like/dislike counters plus the `Set<string>` of voter ids
(embedded as its insertion-ordered element list). -/
structure MovieAgg where
  movieId : Nat
  likes : Nat
  dislikes : Nat
  voters : List String
deriving DecidableEq, Repr

/-- The fresh accumulator entry `{ movieId, likes: 0, dislikes: 0, voters: ∅ }`. -/
def MovieAgg.init (m : Nat) : MovieAgg := ⟨m, 0, 0, []⟩

/-- One `reduce` step applied to an entry: bump the counter for the vote
type and add the voter to the set. -/
def MovieAgg.addVote (a : MovieAgg) (v : VoteRow) : MovieAgg :=
  { a with
    likes := if v.voteType = .like then a.likes + 1 else a.likes
    dislikes := if v.voteType = .like then a.dislikes else a.dislikes + 1
    voters := if a.voters.contains v.participantId then a.voters else a.voters ++ [v.participantId] }

/-- Accumulator entry of the `votes.reduce` grouping in
`getDetailedResults`: counters plus the per-vote ledger
`{ participantId, vote: voteType === "like" }`. -/
structure DetailAgg where
  movieId : Nat
  likes : Nat
  dislikes : Nat
  votingDetails : List (String × Bool)
deriving DecidableEq, Repr

/-- The fresh accumulator entry with empty ledger. -/
def DetailAgg.init (m : Nat) : DetailAgg := ⟨m, 0, 0, []⟩

/-- One `reduce` step: push the ledger entry and bump the counter. -/
def DetailAgg.addVote (a : DetailAgg) (v : VoteRow) : DetailAgg :=
  { a with
    votingDetails := a.votingDetails ++ [(v.participantId, decide (v.voteType = .like))]
    likes := if v.voteType = .like then a.likes + 1 else a.likes
    dislikes := if v.voteType = .like then a.dislikes else a.dislikes + 1 }

/-- The association-map `reduce` step shared by both groupings: a vote
either updates the existing entry keyed by its `movieId` or appends a
fresh updated entry (JS `Record` string keys preserve insertion order,
so `Object.values` lists entries in order of first occurrence). -/
def insertGrouped {α : Type} (key : α → Nat) (init : Nat → α) (upd : α → VoteRow → α) :
    List α → VoteRow → List α
  | [], v => [upd (init v.movieId) v]
  | a :: rest, v =>
    if key a = v.movieId then upd a v :: rest
    else a :: insertGrouped key init upd rest v

/-- `votes.reduce(...)`: fold the room's votes into the association map. -/
def groupVotesBy {α : Type} (key : α → Nat) (init : Nat → α) (upd : α → VoteRow → α)
    (vs : List VoteRow) : List α :=
  vs.foldl (insertGrouped key init upd) []

/-- Insert an element into a list sorted by the comparator-derived
relation `le`, before the first element it may precede. -/
def sortInsert {α : Type} (le : α → α → Bool) (a : α) : List α → List α
  | [] => [a]
  | b :: l => if le a b then a :: b :: l else b :: sortInsert le a l

/-- `Array.prototype.sort(cmp)` with a consistent comparator sorts the
list by the total preorder "`cmp a b ≤ 0`"; it is embedded as insertion
sort with respect to that relation (the claims constrain the sort key
order, not the order within ties). -/
def sortBy {α : Type} (le : α → α → Bool) : List α → List α
  | [] => []
  | a :: l => sortInsert le a (sortBy le l)

/-- One element of the list returned by `getResults`.  The source entry
carries the movie document fetched by `ctx.db.get(movieData.movieId)`;
the embedding records the movie id that names that document. -/
structure ResultEntry where
  movieId : Nat
  likes : Nat
  dislikes : Nat
  totalVotes : Nat
  matchScore : Nat
  isMatch : Bool
deriving DecidableEq, Repr

/-- The per-movie result of `getResults`: `totalVotes` is the voter-set
size, `matchScore = Math.round(likes / totalParticipants * 100)` (0 when
there are no participants), `isMatch` the strict unanimity flag. -/
def scoreEntry (totalParticipants : Nat) (a : MovieAgg) : ResultEntry :=
  { movieId := a.movieId
    likes := a.likes
    dislikes := a.dislikes
    totalVotes := a.voters.length
    matchScore := if 0 < totalParticipants then jsRound (a.likes * 100) totalParticipants else 0
    isMatch := decide (a.voters.length = totalParticipants) &&
      decide (a.likes = totalParticipants) && decide (a.dislikes = 0) }

/-- `getResults` query: group the room's votes by movie, score each
group against the room's current participant count, and sort by match
score, highest first (`results.sort((a, b) => b.matchScore - a.matchScore)`). -/
def getResults (db : DB) (roomId : Nat) : List ResultEntry :=
  let votes := roomVotes db roomId
  let participants := roomParts db roomId
  let grouped := groupVotesBy MovieAgg.movieId MovieAgg.init MovieAgg.addVote votes
  sortBy (fun a b => decide (b.matchScore ≤ a.matchScore))
    (grouped.map (scoreEntry participants.length))

/-- One element of the `results` list returned by `getDetailedResults`. -/
structure DetailEntry where
  movieId : Nat
  totalVotes : Nat
  positiveVotes : Nat
  negativeVotes : Nat
  matchPercentage : Nat
  votingDetails : List (String × Bool)
deriving DecidableEq, Repr

/-- The per-movie result of `getDetailedResults`: the denominator of
`matchPercentage` is `totalVotes`, the number of vote rows on this movie. -/
def detailEntry (a : DetailAgg) : DetailEntry :=
  { movieId := a.movieId
    totalVotes := a.votingDetails.length
    positiveVotes := a.likes
    negativeVotes := a.dislikes
    matchPercentage :=
      if 0 < a.votingDetails.length then jsRound (a.likes * 100) a.votingDetails.length else 0
    votingDetails := a.votingDetails }

/-- `getDetailedResults` query: group, keep only movies with at least
one like, score against the movie's own vote count, sort by
`matchPercentage` then `positiveVotes` (both descending), and return the
participant roster with completion timestamps alongside. -/
def getDetailedResults (db : DB) (roomId : Nat) :
    List DetailEntry × List (String × Option Int) :=
  let votes := roomVotes db roomId
  let participants := roomParts db roomId
  let grouped := groupVotesBy DetailAgg.movieId DetailAgg.init DetailAgg.addVote votes
  let results := sortBy
    (fun a b => decide (b.matchPercentage < a.matchPercentage) ||
      (decide (b.matchPercentage = a.matchPercentage) && decide (b.positiveVotes ≤ a.positiveVotes)))
    ((grouped.filter (fun a => decide (0 < a.likes))).map detailEntry)
  (results, participants.map (fun p => (p.participantId, p.votingCompletedAt)))

/-! ## Lemmas about the sorting step -/

theorem sortInsert_perm {α : Type} (le : α → α → Bool) (a : α) :
    ∀ l : List α, (sortInsert le a l).Perm (a :: l)
  | [] => List.Perm.refl _
  | b :: l => by
    unfold sortInsert
    by_cases h : le a b = true
    · simp [h]
    · simp only [h, if_false]
      exact ((sortInsert_perm le a l).cons b).trans (List.Perm.swap a b l)

theorem sortBy_perm {α : Type} (le : α → α → Bool) : ∀ l : List α, (sortBy le l).Perm l
  | [] => List.Perm.refl _
  | a :: l => (sortInsert_perm le a (sortBy le l)).trans ((sortBy_perm le l).cons a)

theorem sortInsert_pairwise {α : Type} {le : α → α → Bool}
    (total : ∀ x y, le x y = true ∨ le y x = true)
    (letrans : ∀ x y z, le x y = true → le y z = true → le x z = true) (a : α) :
    ∀ {l : List α}, l.Pairwise (fun x y => le x y = true) →
      (sortInsert le a l).Pairwise (fun x y => le x y = true) := by
  intro l hl
  induction l with
  | nil => simp [sortInsert]
  | cons b l ih =>
    rw [List.pairwise_cons] at hl
    obtain ⟨hb, hl'⟩ := hl
    unfold sortInsert
    by_cases hab : le a b = true
    · simp only [hab, if_true]
      refine List.Pairwise.cons ?_ (List.Pairwise.cons hb hl')
      intro x hx
      rcases List.mem_cons.mp hx with rfl | hx
      · exact hab
      · exact letrans a b x hab (hb x hx)
    · simp only [hab, if_false]
      refine List.Pairwise.cons ?_ (ih hl')
      intro x hx
      have hx' : x ∈ a :: l := (sortInsert_perm le a l).mem_iff.mp hx
      rcases List.mem_cons.mp hx' with rfl | hx'
      · rcases total x b with h | h
        · exact absurd h hab
        · exact h
      · exact hb x hx'

theorem sortBy_pairwise {α : Type} {le : α → α → Bool}
    (total : ∀ x y, le x y = true ∨ le y x = true)
    (letrans : ∀ x y z, le x y = true → le y z = true → le x z = true) :
    ∀ l : List α, (sortBy le l).Pairwise (fun x y => le x y = true)
  | [] => List.Pairwise.nil
  | a :: l => sortInsert_pairwise total letrans a (sortBy_pairwise total letrans l)

/-! ## Lemmas about the grouping step -/

section Grouping

variable {α : Type} {key : α → Nat} {init : Nat → α} {upd : α → VoteRow → α}

/-- Inserting a vote whose movie has no entry yet appends a fresh entry. -/
theorem insertGrouped_of_not_mem (v : VoteRow) :
    ∀ {g : List α}, v.movieId ∉ g.map key →
      insertGrouped key init upd g v = g ++ [upd (init v.movieId) v]
  | [], _ => rfl
  | a :: g, h => by
    have hka : key a ≠ v.movieId := by
      intro hk
      exact h (by simp [← hk])
    have hg : v.movieId ∉ g.map key := fun hm => h (by simp [hm])
    simp only [insertGrouped, if_neg hka, List.cons_append,
      insertGrouped_of_not_mem v hg]

/-- Inserting a vote whose movie already has an entry keeps the key list. -/
theorem insertGrouped_keys_of_mem (hkey : ∀ a v, key (upd a v) = key a) (v : VoteRow) :
    ∀ {g : List α}, v.movieId ∈ g.map key →
      (insertGrouped key init upd g v).map key = g.map key := by
  intro g
  induction g with
  | nil => intro h; cases h
  | cons a g ih =>
    intro h
    unfold insertGrouped
    by_cases hka : key a = v.movieId
    · simp [hka, hkey]
    · have hg : v.movieId ∈ g.map key := by
        rcases List.mem_cons.mp h with h' | h'
        · exact absurd h'.symm hka
        · exact h'
      simp [hka, ih hg]

/-- Membership in the updated association list, assuming distinct keys:
an element is an untouched old entry with a different key, the update of
the unique old entry with the vote's key, or the fresh entry. -/
theorem mem_insertGrouped (hkey : ∀ a v, key (upd a v) = key a) (v : VoteRow) :
    ∀ {g : List α}, (g.map key).Nodup → ∀ {b : α}, b ∈ insertGrouped key init upd g v →
      (b ∈ g ∧ key b ≠ v.movieId) ∨
      (∃ a ∈ g, key a = v.movieId ∧ b = upd a v) ∨
      (v.movieId ∉ g.map key ∧ b = upd (init v.movieId) v) := by
  intro g
  induction g with
  | nil =>
    intro _ b hb
    simp only [insertGrouped, List.mem_singleton] at hb
    exact Or.inr (Or.inr ⟨by simp, hb⟩)
  | cons a g ih =>
    intro hnd b hb
    rw [List.map_cons, List.nodup_cons] at hnd
    obtain ⟨hka, hnd'⟩ := hnd
    unfold insertGrouped at hb
    by_cases h : key a = v.movieId
    · simp only [h, if_true, List.mem_cons] at hb
      rcases hb with rfl | hb
      · exact Or.inr (Or.inl ⟨a, List.mem_cons_self a g, h, rfl⟩)
      · have hkb : key b ∈ g.map key := List.mem_map_of_mem key hb
        have : key b ≠ v.movieId := by
          intro he
          exact hka (by rw [h, ← he]; exact hkb)
        exact Or.inl ⟨List.mem_cons_of_mem a hb, this⟩
    · simp only [h, if_false, List.mem_cons] at hb
      rcases hb with rfl | hb
      · exact Or.inl ⟨List.mem_cons_self b g, h⟩
      · rcases ih hnd' hb with ⟨hbg, hne⟩ | ⟨c, hc, hck, rfl⟩ | ⟨hnm, rfl⟩
        · exact Or.inl ⟨List.mem_cons_of_mem a hbg, hne⟩
        · exact Or.inr (Or.inl ⟨c, List.mem_cons_of_mem a hc, hck, rfl⟩)
        · refine Or.inr (Or.inr ⟨?_, rfl⟩)
          simp only [List.map_cons, List.mem_cons]
          rintro (he | he)
          · exact h he.symm
          · exact hnm he

/-- The fold underlying both `reduce` groupings, specified: keys are
distinct, a movie has an entry iff it has a vote, and the entry for a
movie is the fold of that movie's votes over the fresh entry. -/
theorem groupVotesBy_spec (hkey : ∀ a v, key (upd a v) = key a)
    (hinit : ∀ m, key (init m) = m) :
    ∀ vs : List VoteRow,
      ((groupVotesBy key init upd vs).map key).Nodup ∧
      (∀ m, m ∈ (groupVotesBy key init upd vs).map key ↔ m ∈ vs.map VoteRow.movieId) ∧
      (∀ a ∈ groupVotesBy key init upd vs,
        a = (vs.filter (fun v => decide (v.movieId = key a))).foldl upd (init (key a))) := by
  intro vs
  induction vs using List.reverseRecOn with
  | nil => refine ⟨List.Pairwise.nil, by simp [groupVotesBy], by intro a ha; cases ha⟩
  | append_singleton vs v ih =>
    obtain ⟨hnd, hmem, hval⟩ := ih
    have hstep : groupVotesBy key init upd (vs ++ [v]) =
        insertGrouped key init upd (groupVotesBy key init upd vs) v := by
      simp [groupVotesBy, List.foldl_append]
    have hsingle_ne : ∀ m : Nat, m ≠ v.movieId →
        (List.filter (fun w => decide (w.movieId = m)) [v]) = [] := by
      intro m hm
      have hd : decide (v.movieId = m) = false := decide_eq_false (fun h => hm h.symm)
      simp [List.filter_singleton, hd]
    have hsingle_eq :
        (List.filter (fun w => decide (w.movieId = v.movieId)) [v]) = [v] := by
      simp [List.filter_singleton]
    by_cases hv : v.movieId ∈ (groupVotesBy key init upd vs).map key
    · refine ⟨?_, ?_, ?_⟩
      · rw [hstep, insertGrouped_keys_of_mem hkey v hv]; exact hnd
      · intro m
        rw [hstep, insertGrouped_keys_of_mem hkey v hv, hmem m]
        simp only [List.map_append, List.map_cons, List.map_nil, List.mem_append,
          List.mem_singleton]
        constructor
        · intro h
          exact Or.inl h
        · rintro (h | rfl)
          · exact h
          · exact (hmem _).mp hv
      · intro b hb
        rw [hstep] at hb
        rcases mem_insertGrouped hkey v hnd hb with ⟨hbg, hne⟩ | ⟨c, hc, hck, rfl⟩ | ⟨hnm, _⟩
        · rw [List.filter_append, hsingle_ne (key b) hne, List.append_nil]
          exact hval b hbg
        · have hc' := hval c hc
          rw [hck] at hc'
          rw [hkey, hck, List.filter_append, hsingle_eq, List.foldl_append, ← hc']
          simp
        · exact absurd hv hnm
    · have hins := @insertGrouped_of_not_mem _ key init upd v _ hv
      refine ⟨?_, ?_, ?_⟩
      · rw [hstep, hins]
        simp only [List.map_append, List.map_cons, List.map_nil]
        rw [List.nodup_append]
        refine ⟨hnd, List.nodup_singleton _, ?_⟩
        intro m hm hm'
        simp only [hkey, hinit, List.mem_singleton] at hm'
        exact hv (hm' ▸ hm)
      · intro m
        rw [hstep, hins]
        simp only [List.map_append, List.map_cons, List.map_nil, List.mem_append,
          List.mem_singleton, hkey, hinit, hmem m]
      · intro b hb
        rw [hstep, hins, List.mem_append, List.mem_singleton] at hb
        rcases hb with hbg | rfl
        · have hne : key b ≠ v.movieId := by
            intro he
            exact hv (he ▸ List.mem_map_of_mem key hbg)
          rw [List.filter_append, hsingle_ne (key b) hne, List.append_nil]
          exact hval b hbg
        · have hkb : key (upd (init v.movieId) v) = v.movieId := by rw [hkey, hinit]
          rw [hkb, List.filter_append]
          have h1 : (vs.filter (fun w => decide (w.movieId = v.movieId))) = [] := by
            rw [List.filter_eq_nil_iff]
            intro w hw
            simp only [decide_eq_true_eq]
            intro he
            have : v.movieId ∈ (groupVotesBy key init upd vs).map key :=
              (hmem v.movieId).mpr (he ▸ List.mem_map_of_mem VoteRow.movieId hw)
            exact hv this
          rw [h1, hsingle_eq]
          simp

end Grouping

/-! ## Spec-language vote counting

These definitions formalise the counting vocabulary of the claims
("likes and dislikes count that movie's vote rows by voteType",
"totalVotes is the number of distinct participantIds among that movie's
votes"); the theorems compare the embedded aggregation against them. -/

/-- The vote rows on a given movie. -/
def votesOn (m : Nat) (vs : List VoteRow) : List VoteRow :=
  vs.filter (fun v => decide (v.movieId = m))

/-- Number of like rows on the movie. -/
def likesFor (m : Nat) (vs : List VoteRow) : Nat :=
  ((votesOn m vs).filter (fun v => decide (v.voteType = .like))).length

/-- Number of dislike rows on the movie. -/
def dislikesFor (m : Nat) (vs : List VoteRow) : Nat :=
  ((votesOn m vs).filter (fun v => decide (v.voteType = .dislike))).length

/-- Number of distinct participant ids among the movie's vote rows. -/
def distinctVotersFor (m : Nat) (vs : List VoteRow) : Nat :=
  ((votesOn m vs).map VoteRow.participantId).dedup.length

/-! ## The `getResults` aggregation, entry by entry -/

theorem foldl_addVote_movieId :
    ∀ (l : List VoteRow) (a : MovieAgg), (l.foldl MovieAgg.addVote a).movieId = a.movieId
  | [], _ => rfl
  | v :: l, a => by
    rw [List.foldl_cons, foldl_addVote_movieId l]
    rfl

theorem foldl_addVote_likes :
    ∀ (l : List VoteRow) (a : MovieAgg),
      (l.foldl MovieAgg.addVote a).likes =
        a.likes + (l.filter (fun v => decide (v.voteType = VoteType.like))).length
  | [], _ => by simp
  | v :: l, a => by
    rw [List.foldl_cons, foldl_addVote_likes l, List.filter_cons]
    cases hv : v.voteType
    · simp [MovieAgg.addVote, hv] <;> omega
    · simp [MovieAgg.addVote, hv]

theorem foldl_addVote_dislikes :
    ∀ (l : List VoteRow) (a : MovieAgg),
      (l.foldl MovieAgg.addVote a).dislikes =
        a.dislikes + (l.filter (fun v => decide (v.voteType = VoteType.dislike))).length
  | [], _ => by simp
  | v :: l, a => by
    rw [List.foldl_cons, foldl_addVote_dislikes l, List.filter_cons]
    cases hv : v.voteType
    · simp [MovieAgg.addVote, hv]
    · simp [MovieAgg.addVote, hv] <;> omega

theorem mem_foldl_addVote_voters :
    ∀ (l : List VoteRow) (a : MovieAgg) (p : String),
      p ∈ (l.foldl MovieAgg.addVote a).voters ↔
        p ∈ a.voters ∨ p ∈ l.map VoteRow.participantId
  | [], _, _ => by simp
  | v :: l, a, p => by
    rw [List.foldl_cons, mem_foldl_addVote_voters l]
    simp only [MovieAgg.addVote, List.map_cons, List.mem_cons]
    by_cases h : a.voters.contains v.participantId
    · rw [if_pos h]
      have hv : v.participantId ∈ a.voters := List.elem_iff.mp h
      constructor
      · rintro (hp | hp)
        · exact Or.inl hp
        · exact Or.inr (Or.inr hp)
      · rintro (hp | rfl | hp)
        · exact Or.inl hp
        · exact Or.inl hv
        · exact Or.inr hp
    · rw [if_neg h]
      simp only [List.mem_append, List.mem_singleton]
      constructor
      · rintro ((hp | rfl) | hp)
        · exact Or.inl hp
        · exact Or.inr (Or.inl rfl)
        · exact Or.inr (Or.inr hp)
      · rintro (hp | rfl | hp)
        · exact Or.inl (Or.inl hp)
        · exact Or.inl (Or.inr rfl)
        · exact Or.inr hp

theorem foldl_addVote_voters_nodup :
    ∀ (l : List VoteRow) (a : MovieAgg), a.voters.Nodup →
      (l.foldl MovieAgg.addVote a).voters.Nodup
  | [], _, h => h
  | v :: l, a, h => by
    rw [List.foldl_cons]
    apply foldl_addVote_voters_nodup l
    simp only [MovieAgg.addVote]
    by_cases hc : a.voters.contains v.participantId
    · rw [if_pos hc]; exact h
    · rw [if_neg hc]
      have hv : v.participantId ∉ a.voters := by
        intro hm
        exact hc (List.elem_iff.mpr hm)
      simp [List.nodup_append, h, hv]

theorem movieAgg_group_spec (vs : List VoteRow) :
    ((groupVotesBy MovieAgg.movieId MovieAgg.init MovieAgg.addVote vs).map
      MovieAgg.movieId).Nodup ∧
    (∀ m, m ∈ (groupVotesBy MovieAgg.movieId MovieAgg.init MovieAgg.addVote vs).map
      MovieAgg.movieId ↔ m ∈ vs.map VoteRow.movieId) ∧
    (∀ a ∈ groupVotesBy MovieAgg.movieId MovieAgg.init MovieAgg.addVote vs,
      a = (votesOn a.movieId vs).foldl MovieAgg.addVote (MovieAgg.init a.movieId)) :=
  @groupVotesBy_spec _ MovieAgg.movieId MovieAgg.init MovieAgg.addVote
    (fun _ _ => rfl) (fun _ => rfl) vs

theorem getResults_perm (db : DB) (roomId : Nat) :
    (getResults db roomId).Perm
      ((groupVotesBy MovieAgg.movieId MovieAgg.init MovieAgg.addVote
        (roomVotes db roomId)).map (scoreEntry (roomParts db roomId).length)) :=
  sortBy_perm _ _

/-- Each entry of `getResults` carries the spec-language counts for its
movie: likes and dislikes count the movie's vote rows by type,
`totalVotes` counts distinct voters, `matchScore` is the rounded
likes-over-participants percentage, and `isMatch` is the strict
unanimity flag. -/
theorem getResults_entry_fields (db : DB) (roomId : Nat) :
    ∀ e ∈ getResults db roomId,
      e.likes = likesFor e.movieId (roomVotes db roomId) ∧
      e.dislikes = dislikesFor e.movieId (roomVotes db roomId) ∧
      e.totalVotes = distinctVotersFor e.movieId (roomVotes db roomId) ∧
      e.matchScore = (if 0 < (roomParts db roomId).length then
        jsRound (e.likes * 100) (roomParts db roomId).length else 0) ∧
      (e.isMatch = true ↔ e.totalVotes = (roomParts db roomId).length ∧
        e.likes = (roomParts db roomId).length ∧ e.dislikes = 0) := by
  intro e he
  have he' := (getResults_perm db roomId).mem_iff.mp he
  obtain ⟨a, ha, rfl⟩ := List.mem_map.mp he'
  obtain ⟨hnd, hmem, hval⟩ := movieAgg_group_spec (roomVotes db roomId)
  have hae := hval a ha
  have hlikes : a.likes = likesFor a.movieId (roomVotes db roomId) := by
    conv_lhs => rw [hae]
    rw [foldl_addVote_likes]
    simp [MovieAgg.init, likesFor]
  have hdislikes : a.dislikes = dislikesFor a.movieId (roomVotes db roomId) := by
    conv_lhs => rw [hae]
    rw [foldl_addVote_dislikes]
    simp [MovieAgg.init, dislikesFor]
  have hvoters : a.voters.length = distinctVotersFor a.movieId (roomVotes db roomId) := by
    have hn1 : a.voters.Nodup := by
      rw [hae]
      exact foldl_addVote_voters_nodup _ _ (by simp [MovieAgg.init])
    have hn2 : ((votesOn a.movieId (roomVotes db roomId)).map
        VoteRow.participantId).dedup.Nodup := List.nodup_dedup _
    have hperm : a.voters.Perm
        ((votesOn a.movieId (roomVotes db roomId)).map VoteRow.participantId).dedup := by
      rw [List.perm_ext_iff_of_nodup hn1 hn2]
      intro p
      rw [List.mem_dedup]
      conv_lhs => rw [hae]
      rw [mem_foldl_addVote_voters]
      simp [MovieAgg.init]
    exact hperm.length_eq
  refine ⟨hlikes, hdislikes, hvoters, rfl, ?_⟩
  show (decide (a.voters.length = (roomParts db roomId).length) &&
    decide (a.likes = (roomParts db roomId).length) && decide (a.dislikes = 0)) = true ↔ _
  simp only [Bool.and_eq_true, decide_eq_true_eq]
  show _ ↔ (scoreEntry (roomParts db roomId).length a).totalVotes = _ ∧ _
  simp only [scoreEntry]
  tauto

/-- The movies listed by `getResults`: one entry per voted movie. -/
theorem getResults_movieIds (db : DB) (roomId : Nat) :
    ((getResults db roomId).map ResultEntry.movieId).Nodup ∧
    (∀ m, m ∈ (getResults db roomId).map ResultEntry.movieId ↔
      ∃ v ∈ roomVotes db roomId, v.movieId = m) := by
  obtain ⟨hnd, hmem, _⟩ := movieAgg_group_spec (roomVotes db roomId)
  have hperm : ((getResults db roomId).map ResultEntry.movieId).Perm
      ((groupVotesBy MovieAgg.movieId MovieAgg.init MovieAgg.addVote
        (roomVotes db roomId)).map MovieAgg.movieId) := by
    have h1 := (getResults_perm db roomId).map ResultEntry.movieId
    rw [List.map_map] at h1
    exact h1
  constructor
  · exact (hperm.nodup_iff).mpr hnd
  · intro m
    rw [hperm.mem_iff, hmem m]
    simp only [List.mem_map]

/-- The `getResults` list is sorted by `matchScore`, highest first. -/
theorem getResults_sorted (db : DB) (roomId : Nat) :
    (getResults db roomId).Pairwise (fun a b => b.matchScore ≤ a.matchScore) := by
  have h := @sortBy_pairwise ResultEntry
    (fun a b : ResultEntry => decide (b.matchScore ≤ a.matchScore))
    (fun x y => by
      rcases Nat.le_total y.matchScore x.matchScore with h | h
      · exact Or.inl (decide_eq_true h)
      · exact Or.inr (decide_eq_true h))
    (fun x y z hxy hyz => decide_eq_true
      (Nat.le_trans (of_decide_eq_true hyz) (of_decide_eq_true hxy)))
    ((groupVotesBy MovieAgg.movieId MovieAgg.init MovieAgg.addVote
      (roomVotes db roomId)).map (scoreEntry (roomParts db roomId).length))
  exact h.imp (fun hd => of_decide_eq_true hd)

/-! ## The `getDetailedResults` aggregation, entry by entry -/

theorem foldl_dAddVote_movieId :
    ∀ (l : List VoteRow) (a : DetailAgg), (l.foldl DetailAgg.addVote a).movieId = a.movieId
  | [], _ => rfl
  | v :: l, a => by
    rw [List.foldl_cons, foldl_dAddVote_movieId l]
    rfl

theorem foldl_dAddVote_likes :
    ∀ (l : List VoteRow) (a : DetailAgg),
      (l.foldl DetailAgg.addVote a).likes =
        a.likes + (l.filter (fun v => decide (v.voteType = VoteType.like))).length
  | [], _ => by simp
  | v :: l, a => by
    rw [List.foldl_cons, foldl_dAddVote_likes l, List.filter_cons]
    cases hv : v.voteType
    · simp [DetailAgg.addVote, hv]
      omega
    · simp [DetailAgg.addVote, hv]

theorem foldl_dAddVote_dislikes :
    ∀ (l : List VoteRow) (a : DetailAgg),
      (l.foldl DetailAgg.addVote a).dislikes =
        a.dislikes + (l.filter (fun v => decide (v.voteType = VoteType.dislike))).length
  | [], _ => by simp
  | v :: l, a => by
    rw [List.foldl_cons, foldl_dAddVote_dislikes l, List.filter_cons]
    cases hv : v.voteType
    · simp [DetailAgg.addVote, hv]
    · simp [DetailAgg.addVote, hv]
      omega

theorem foldl_dAddVote_details :
    ∀ (l : List VoteRow) (a : DetailAgg),
      (l.foldl DetailAgg.addVote a).votingDetails =
        a.votingDetails ++ l.map (fun v => (v.participantId, decide (v.voteType = VoteType.like)))
  | [], _ => by simp
  | v :: l, a => by
    rw [List.foldl_cons, foldl_dAddVote_details l]
    simp [DetailAgg.addVote]

theorem detailAgg_group_spec (vs : List VoteRow) :
    ((groupVotesBy DetailAgg.movieId DetailAgg.init DetailAgg.addVote vs).map
      DetailAgg.movieId).Nodup ∧
    (∀ m, m ∈ (groupVotesBy DetailAgg.movieId DetailAgg.init DetailAgg.addVote vs).map
      DetailAgg.movieId ↔ m ∈ vs.map VoteRow.movieId) ∧
    (∀ a ∈ groupVotesBy DetailAgg.movieId DetailAgg.init DetailAgg.addVote vs,
      a = (votesOn a.movieId vs).foldl DetailAgg.addVote (DetailAgg.init a.movieId)) :=
  @groupVotesBy_spec _ DetailAgg.movieId DetailAgg.init DetailAgg.addVote
    (fun _ _ => rfl) (fun _ => rfl) vs

theorem getDetailedResults_perm (db : DB) (roomId : Nat) :
    (getDetailedResults db roomId).1.Perm
      (((groupVotesBy DetailAgg.movieId DetailAgg.init DetailAgg.addVote
          (roomVotes db roomId)).filter (fun a => decide (0 < a.likes))).map detailEntry) :=
  sortBy_perm _ _

/-- Each entry of the detailed results carries the spec-language counts:
`positiveVotes`/`negativeVotes` count the movie's rows by type,
`totalVotes` counts all its vote rows, and `matchPercentage` divides by
`totalVotes` (votes on this movie), not by the participant count. -/
theorem getDetailedResults_entry_fields (db : DB) (roomId : Nat) :
    ∀ e ∈ (getDetailedResults db roomId).1,
      e.positiveVotes = likesFor e.movieId (roomVotes db roomId) ∧
      e.negativeVotes = dislikesFor e.movieId (roomVotes db roomId) ∧
      e.totalVotes = (votesOn e.movieId (roomVotes db roomId)).length ∧
      0 < e.positiveVotes ∧
      e.matchPercentage = (if 0 < e.totalVotes then
        jsRound (e.positiveVotes * 100) e.totalVotes else 0) := by
  intro e he
  have he' := (getDetailedResults_perm db roomId).mem_iff.mp he
  obtain ⟨a, ha, rfl⟩ := List.mem_map.mp he'
  rw [List.mem_filter] at ha
  obtain ⟨ha, hpos⟩ := ha
  obtain ⟨hnd, hmem, hval⟩ := detailAgg_group_spec (roomVotes db roomId)
  have hae := hval a ha
  have hlikes : a.likes = likesFor a.movieId (roomVotes db roomId) := by
    conv_lhs => rw [hae]
    rw [foldl_dAddVote_likes]
    simp [DetailAgg.init, likesFor]
  have hdislikes : a.dislikes = dislikesFor a.movieId (roomVotes db roomId) := by
    conv_lhs => rw [hae]
    rw [foldl_dAddVote_dislikes]
    simp [DetailAgg.init, dislikesFor]
  have hlen : a.votingDetails.length = (votesOn a.movieId (roomVotes db roomId)).length := by
    conv_lhs => rw [hae]
    rw [foldl_dAddVote_details]
    simp [DetailAgg.init]
  refine ⟨hlikes, hdislikes, hlen, ?_, ?_⟩
  · show 0 < a.likes
    exact of_decide_eq_true hpos
  · rfl

/-! ## Claim C1 -/

/-- C1: for every room state, `getResults(roomId)` returns exactly one
entry per movie having at least one vote row (movies with zero votes do
not appear); `likes` and `dislikes` count that movie's vote rows by
`voteType`, `totalVotes` is the number of distinct `participantId`s
among that movie's votes, `matchScore = round(likes / totalParticipants
* 100)` with `totalParticipants` the room's current participant count
(and 0 when that count is 0), `isMatch` holds iff the distinct-voter
count and the like count both equal `totalParticipants` and there are
no dislikes, and the list is sorted by `matchScore` descending. -/
theorem C1_getResults_aggregation (db : DB) (roomId : Nat) :
    (((getResults db roomId).map ResultEntry.movieId).Nodup ∧
      (∀ m, (∃ e ∈ getResults db roomId, e.movieId = m) ↔
        (∃ v ∈ roomVotes db roomId, v.movieId = m))) ∧
    (∀ e ∈ getResults db roomId,
      e.likes = likesFor e.movieId (roomVotes db roomId) ∧
      e.dislikes = dislikesFor e.movieId (roomVotes db roomId) ∧
      e.totalVotes = distinctVotersFor e.movieId (roomVotes db roomId) ∧
      e.matchScore = (if 0 < (roomParts db roomId).length then
        jsRound (e.likes * 100) (roomParts db roomId).length else 0) ∧
      (e.isMatch = true ↔ e.totalVotes = (roomParts db roomId).length ∧
        e.likes = (roomParts db roomId).length ∧ e.dislikes = 0)) ∧
    (getResults db roomId).Pairwise (fun a b => b.matchScore ≤ a.matchScore) := by
  refine ⟨⟨(getResults_movieIds db roomId).1, ?_⟩,
    getResults_entry_fields db roomId, getResults_sorted db roomId⟩
  intro m
  rw [← (getResults_movieIds db roomId).2 m]
  simp [List.mem_map]

/-! ## Claim C2 -/

/-- Room state with 13 participants, twelve of whom voted on movie 100
(one like, eleven dislikes): both scoring functions round to 8. -/
def c2db : DB :=
  { rooms := [⟨0, "1000", "action", "0", .active, 1000000, 20, 0⟩],
    roomParticipants := (List.range 13).map (fun i => ⟨i + 1, 0, toString i, 0, none⟩),
    votes := (List.range 12).map
      (fun i => ⟨i + 20, 0, 100, toString (i + 1), if i = 0 then .like else .dislike, 0⟩),
    movies := [100], nextId := 50 }

/-- Room state with 3 participants, movie 100 liked by two of them and
not voted on by the third: `getResults` scores 67, `getDetailedResults`
scores 100. -/
def c2db' : DB :=
  { rooms := [⟨0, "1000", "action", "a", .active, 1000000, 10, 0⟩],
    roomParticipants := [⟨1, 0, "a", 0, none⟩, ⟨2, 0, "b", 0, none⟩, ⟨3, 0, "c", 0, none⟩],
    votes := [⟨4, 0, 100, "a", .like, 1⟩, ⟨5, 0, 100, "b", .like, 2⟩],
    movies := [100], nextId := 6 }

/-- C2 counterexample: in `c2db` movie 100 was voted on by 12 of the 13
current participants, with one like, yet `getResults` and
`getDetailedResults` both report score 8 for it — refuting "for every
room state in which some movie was voted on by fewer than all current
participants (with at least one like), the two functions report
different scores for that movie", and with it the "agree exactly when
every current participant voted on it" equivalence. -/
theorem C2_counterexample :
    (getResults c2db 0).map (fun e => (e.movieId, e.matchScore)) = [(100, 8)] ∧
    ((getDetailedResults c2db 0).1.map (fun d => (d.movieId, d.matchPercentage))) = [(100, 8)] ∧
    distinctVotersFor 100 (roomVotes c2db 0) = 12 ∧
    (roomParts c2db 0).length = 13 ∧
    likesFor 100 (roomVotes c2db 0) = 1 := by decide

/-- C2 (amended): `getResults` and `getDetailedResults` are not
equivalent scoring functions.  `getDetailedResults` computes
`matchPercentage = round(likes / totalVotes * 100)` with `totalVotes`
the number of vote rows on the movie, whereas `getResults` divides by
the room's participant count; the two agree on every movie whose
vote-row count equals the current participant count, and there are room
states where they disagree (movie voted on by fewer than all
participants) — though for such movies the two rounded scores may also
coincide, as `C2_counterexample` shows. -/
theorem C2_scoring_divergence_amended :
    (∀ db roomId d, d ∈ (getDetailedResults db roomId).1 →
      d.positiveVotes = likesFor d.movieId (roomVotes db roomId) ∧
      d.totalVotes = (votesOn d.movieId (roomVotes db roomId)).length ∧
      d.matchPercentage = (if 0 < d.totalVotes then
        jsRound (d.positiveVotes * 100) d.totalVotes else 0)) ∧
    (∀ db roomId e d, e ∈ getResults db roomId → d ∈ (getDetailedResults db roomId).1 →
      e.movieId = d.movieId →
      (votesOn e.movieId (roomVotes db roomId)).length = (roomParts db roomId).length →
      e.matchScore = d.matchPercentage) ∧
    (∃ e ∈ getResults c2db' 0, ∃ d ∈ (getDetailedResults c2db' 0).1,
      e.movieId = d.movieId ∧ e.matchScore ≠ d.matchPercentage) := by
  refine ⟨?_, ?_, ?_⟩
  · intro db roomId d hd
    obtain ⟨h1, h2, h3, _, h5⟩ := getDetailedResults_entry_fields db roomId d hd
    exact ⟨h1, h3, h5⟩
  · intro db roomId e d he hd hm hrows
    obtain ⟨helikes, _, _, hescore, _⟩ := getResults_entry_fields db roomId e he
    obtain ⟨hdlikes, _, hdrows, hdpos, hdscore⟩ := getDetailedResults_entry_fields db roomId d hd
    have hlikes_eq : d.positiveVotes = e.likes := by rw [hdlikes, helikes, hm]
    have hrows_eq : d.totalVotes = (roomParts db roomId).length := by
      rw [hdrows, ← hm, hrows]
    have htp_pos : 0 < (roomParts db roomId).length := by
      have h1 : 0 < d.totalVotes := by
        rw [hdrows]
        calc 0 < d.positiveVotes := hdpos
        _ ≤ (votesOn d.movieId (roomVotes db roomId)).length := by
              rw [hdlikes, likesFor]
              exact List.length_filter_le _ _
      rw [← hrows_eq]
      exact h1
    rw [hescore, hdscore, if_pos htp_pos, if_pos (hrows_eq ▸ htp_pos), hlikes_eq, hrows_eq]
  · decide

/-! ## Claim C3: upsert semantics of `submitVote` -/

/-- The vote rows for one `(roomId, movieId, participantId)` triple, as
`submitVote` looks them up: the room's votes filtered by movie and
participant. -/
def tripleVotes (db : DB) (roomId movieId : Nat) (participantId : String) : List VoteRow :=
  (roomVotes db roomId).filter
    (fun v => decide (v.movieId = movieId) && decide (v.participantId = participantId))

theorem filter_singleton_pos {α : Type} {p : α → Bool} {v : α} (h : p v = true) :
    [v].filter p = [v] := by simp [List.filter_singleton, h]

theorem filter_singleton_neg {α : Type} {p : α → Bool} {v : α} (h : p v = false) :
    [v].filter p = [] := by simp [List.filter_singleton, h]

theorem find?_eq_some_filter {α : Type} {p : α → Bool} :
    ∀ {l : List α} {x : α}, l.find? p = some x → ∃ t, l.filter p = x :: t := by
  intro l
  induction l with
  | nil => intro x h; cases h
  | cons a l ih =>
    intro x h
    by_cases hp : p a = true
    · rw [List.find?_cons_of_pos _ hp] at h
      cases h
      exact ⟨l.filter p, by rw [List.filter_cons_of_pos hp]⟩
    · rw [List.find?_cons_of_neg _ (by simpa using hp)] at h
      obtain ⟨t, ht⟩ := ih h
      exact ⟨t, by rw [List.filter_cons_of_neg (by simpa using hp), ht]⟩

theorem eq_singleton_of_unique {α : Type} :
    ∀ {l : List α} {x : α}, (∀ y ∈ l, y = x) → x ∈ l → l.Nodup → l = [x] := by
  intro l x h1 h2 h3
  cases l with
  | nil => cases h2
  | cons a t =>
    have ha : a = x := h1 a (List.mem_cons_self a t)
    subst ha
    rw [List.nodup_cons] at h3
    have ht : t = [] := by
      rw [List.eq_nil_iff_forall_not_mem]
      intro z hz
      have : z = a := h1 z (List.mem_cons_of_mem a hz)
      exact h3.1 (this ▸ hz)
    rw [ht]

/-- `submitVote` on a live room by a participant, for a stored movie:
returns `updated = true` and patches the existing row in place when the
triple already has a row, otherwise inserts a fresh row and returns
`updated = false`; afterwards the triple has exactly one row carrying
the new `voteType` and `votedAt`, every other triple's rows and every
other table are untouched, and the vote ids stay distinct and below
`nextId`. -/
theorem submitVote_spec (db : DB) (roomId movieId : Nat) (pid : String)
    (vt : VoteType) (now : Int) (room : Room)
    (hvid : (db.votes.map VoteRow.id).Nodup)
    (hfresh : ∀ v ∈ db.votes, v.id < db.nextId)
    (hlen1 : (tripleVotes db roomId movieId pid).length ≤ 1)
    (hroom : findRoom db roomId = some room)
    (hactive : room.status = Status.active)
    (hlive : ¬ room.expiresAt < now)
    (hpart : (findParticipant db roomId pid).isSome)
    (hmovie : movieId ∈ db.movies) :
    ∃ voteId upd db',
      submitVote db roomId movieId pid vt now = (.ok (voteId, upd), db') ∧
      (upd = true ↔ tripleVotes db roomId movieId pid ≠ []) ∧
      (∀ w ∈ tripleVotes db roomId movieId pid, voteId = w.id) ∧
      tripleVotes db' roomId movieId pid =
        [{ id := voteId, roomId := roomId, movieId := movieId, participantId := pid,
           voteType := vt, votedAt := now }] ∧
      (∀ r m p, ¬(r = roomId ∧ m = movieId ∧ p = pid) →
        tripleVotes db' r m p = tripleVotes db r m p) ∧
      db'.rooms = db.rooms ∧ db'.roomParticipants = db.roomParticipants ∧
      db'.movies = db.movies ∧
      (db'.votes.map VoteRow.id).Nodup ∧ (∀ v ∈ db'.votes, v.id < db'.nextId) := by
  obtain ⟨part, hpart'⟩ := Option.isSome_iff_exists.mp hpart
  have hstat : ¬ room.status ≠ Status.active := by simp [hactive]
  cases hfind : (roomVotes db roomId).find?
      (fun v => decide (v.movieId = movieId) && decide (v.participantId = pid)) with
  | none =>
    have htrip : tripleVotes db roomId movieId pid = [] := by
      rw [tripleVotes, List.filter_eq_nil_iff]
      intro w hw
      exact (List.find?_eq_none.mp hfind) w hw
    have hroomfilter : ∀ r : Nat,
        (db.votes ++ [(⟨db.nextId, roomId, movieId, pid, vt, now⟩ : VoteRow)]).filter
          (fun v => decide (v.roomId = r)) =
        db.votes.filter (fun v => decide (v.roomId = r)) ++
          (if roomId = r then [(⟨db.nextId, roomId, movieId, pid, vt, now⟩ : VoteRow)]
            else []) := by
      intro r
      rw [List.filter_append]
      by_cases hr : roomId = r
      · rw [filter_singleton_pos (by simp [hr]), if_pos hr]
      · rw [filter_singleton_neg (by simp [hr]), if_neg hr]
    refine ⟨db.nextId, false,
      { db with votes := db.votes ++ [(⟨db.nextId, roomId, movieId, pid, vt, now⟩ : VoteRow)], nextId := db.nextId + 1 },
      ?_, ?_, ?_, ?_, ?_, rfl, rfl, rfl, ?_, ?_⟩
    · simp only [submitVote, hroom, hstat, if_false, hlive, if_neg, hpart', hmovie,
        if_pos, if_true, hfind]
    · simp [htrip]
    · rw [htrip]
      intro w hw
      cases hw
    · show ((db.votes ++ [_]).filter _).filter _ = _
      rw [hroomfilter roomId, if_pos rfl, List.filter_append]
      have h1 : (db.votes.filter (fun v => decide (v.roomId = roomId))).filter
          (fun v => decide (v.movieId = movieId) && decide (v.participantId = pid)) = [] := htrip
      rw [h1, filter_singleton_pos (by simp)]
      rfl
    · intro r m p hne
      show ((db.votes ++ [_]).filter _).filter _ = _
      rw [hroomfilter r]
      by_cases hr : roomId = r
      · rw [if_pos hr, List.filter_append]
        have hnmp : ¬ (m = movieId ∧ p = pid) := fun hc => hne ⟨hr.symm, hc.1, hc.2⟩
        by_cases hm : m = movieId
        · have hp : p ≠ pid := fun hc => hnmp ⟨hm, hc⟩
          rw [filter_singleton_neg (by simp [show ¬ pid = p from fun hc => hp hc.symm])]
          rw [List.append_nil]
          rfl
        · rw [filter_singleton_neg (by simp [show ¬ movieId = m from fun hc => hm hc.symm])]
          rw [List.append_nil]
          rfl
      · rw [if_neg hr, List.append_nil]
        rfl
    · show ((db.votes ++ [_]).map VoteRow.id).Nodup
      rw [List.map_append, List.nodup_append]
      refine ⟨hvid, List.nodup_singleton _, ?_⟩
      intro i hi hi'
      simp only [List.map_cons, List.map_nil, List.mem_singleton] at hi'
      obtain ⟨v, hv, rfl⟩ := List.mem_map.mp hi
      have hlt := hfresh v hv
      rw [hi'] at hlt
      exact Nat.lt_irrefl _ hlt
    · intro v hv
      replace hv : v ∈ db.votes ++ [(⟨db.nextId, roomId, movieId, pid, vt, now⟩ : VoteRow)] := hv
      rw [List.mem_append] at hv
      show v.id < db.nextId + 1
      rcases hv with hv | hv
      · exact Nat.lt_trans (hfresh v hv) (Nat.lt_succ_self _)
      · rw [List.mem_singleton] at hv
        subst hv
        exact Nat.lt_succ_self _
  | some x =>
    have hpx := List.find?_some hfind
    have hxroom' : x ∈ roomVotes db roomId := List.mem_of_find?_eq_some hfind
    have hxvotes : x ∈ db.votes := List.mem_of_mem_filter hxroom'
    have hxroomId : x.roomId = roomId := by
      have := List.of_mem_filter hxroom'
      simpa using this
    obtain ⟨hxm, hxp⟩ : x.movieId = movieId ∧ x.participantId = pid := by
      simpa [Bool.and_eq_true, decide_eq_true_eq] using hpx
    have htrip : tripleVotes db roomId movieId pid = [x] := by
      obtain ⟨t, ht⟩ := find?_eq_some_filter hfind
      have : (x :: t).length ≤ 1 := by
        rw [← ht]
        exact hlen1
      have ht0 : t = [] := by
        cases t with
        | nil => rfl
        | cons c t' => simp at this
      rw [tripleVotes, ht, ht0]
    have hidinj := List.inj_on_of_nodup_map hvid
    have hfixed : ∀ w ∈ db.votes, ¬(w.movieId = movieId ∧ w.participantId = pid ∧
        w.roomId = roomId) → (if w.id = x.id then
          { w with voteType := vt, votedAt := now } else w) = w := by
      intro w hw hwne
      rw [if_neg]
      intro hid
      have : w = x := hidinj hw hxvotes hid
      subst this
      exact hwne ⟨hxm, hxp, hxroomId⟩
    refine ⟨x.id, true, { db with votes := patchVoteRow db.votes x.id vt now },
      ?_, ?_, ?_, ?_, ?_, rfl, rfl, rfl, ?_, ?_⟩
    · simp only [submitVote, hroom, hstat, if_false, hlive, if_neg, hpart', hmovie,
        if_pos, if_true, hfind]
    · simp [htrip]
    · rw [htrip]
      intro w hw
      rw [List.mem_singleton] at hw
      rw [hw]
    · show ((patchVoteRow db.votes x.id vt now).filter _).filter _ = _
      rw [patchVoteRow, List.filter_map, List.filter_map]
      have hcomp1 : ((fun v => decide (v.roomId = roomId)) ∘
          (fun v => if v.id = x.id then { v with voteType := vt, votedAt := now } else v)) =
          (fun v : VoteRow => decide (v.roomId = roomId)) := by
        funext v
        by_cases h : v.id = x.id <;> simp [h]
      have hcomp2 : ((fun v => decide (v.movieId = movieId) && decide (v.participantId = pid)) ∘
          (fun v => if v.id = x.id then { v with voteType := vt, votedAt := now } else v)) =
          (fun v : VoteRow => decide (v.movieId = movieId) && decide (v.participantId = pid)) := by
        funext v
        by_cases h : v.id = x.id <;> simp [h]
      rw [hcomp1]
      have : List.filter ((fun v => decide (v.movieId = movieId) &&
          decide (v.participantId = pid)) ∘
          (fun v => if v.id = x.id then { v with voteType := vt, votedAt := now } else v))
          (List.filter (fun v => decide (v.roomId = roomId)) db.votes) =
          tripleVotes db roomId movieId pid := by
        rw [hcomp2]
        rfl
      rw [this, htrip]
      simp [hxroomId, hxm, hxp]
    · intro r m p hne
      show ((patchVoteRow db.votes x.id vt now).filter _).filter _ = _
      rw [patchVoteRow, List.filter_map, List.filter_map]
      have hcomp1 : ((fun v => decide (v.roomId = r)) ∘
          (fun v => if v.id = x.id then { v with voteType := vt, votedAt := now } else v)) =
          (fun v : VoteRow => decide (v.roomId = r)) := by
        funext v
        by_cases h : v.id = x.id <;> simp [h]
      have hcomp2 : ((fun v => decide (v.movieId = m) && decide (v.participantId = p)) ∘
          (fun v => if v.id = x.id then { v with voteType := vt, votedAt := now } else v)) =
          (fun v : VoteRow => decide (v.movieId = m) && decide (v.participantId = p)) := by
        funext v
        by_cases h : v.id = x.id <;> simp [h]
      rw [hcomp1, hcomp2]
      have heq : List.map
          (fun v => if v.id = x.id then { v with voteType := vt, votedAt := now } else v)
          ((db.votes.filter (fun v => decide (v.roomId = r))).filter
            (fun v => decide (v.movieId = m) && decide (v.participantId = p))) =
          tripleVotes db r m p := by
        have : ∀ w ∈ (db.votes.filter (fun v => decide (v.roomId = r))).filter
            (fun v => decide (v.movieId = m) && decide (v.participantId = p)),
            (if w.id = x.id then { w with voteType := vt, votedAt := now } else w) = w := by
          intro w hw
          have hw1 := List.of_mem_filter hw
          have hw2 : w ∈ db.votes.filter (fun v => decide (v.roomId = r)) :=
            List.mem_of_mem_filter hw
          have hw3 := List.of_mem_filter hw2
          have hw4 : w ∈ db.votes := List.mem_of_mem_filter hw2
          simp only [Bool.and_eq_true, decide_eq_true_eq] at hw1 hw3
          refine hfixed w hw4 ?_
          intro ⟨ha, hb, hc⟩
          exact hne ⟨by rw [← hw3, hc], by rw [← hw1.1, ha], by rw [← hw1.2, hb]⟩
        rw [List.map_congr_left (by intro w hw; rw [this w hw])]
        simp [tripleVotes, roomVotes]
      rw [heq]
    · show ((patchVoteRow db.votes x.id vt now).map VoteRow.id).Nodup
      rw [patchVoteRow, List.map_map]
      have : (VoteRow.id ∘
          (fun v => if v.id = x.id then { v with voteType := vt, votedAt := now } else v)) =
          VoteRow.id := by
        funext v
        by_cases h : v.id = x.id <;> simp [h]
      rw [this]
      exact hvid
    · intro v hv
      replace hv : v ∈ patchVoteRow db.votes x.id vt now := hv
      rw [patchVoteRow] at hv
      obtain ⟨w, hw, rfl⟩ := List.mem_map.mp hv
      show (if w.id = x.id then { w with voteType := vt, votedAt := now } else w).id < db.nextId
      by_cases h : w.id = x.id
      · rw [if_pos h]
        show w.id < db.nextId
        exact hfresh w hw
      · rw [if_neg h]
        exact hfresh w hw

/-- Like-then-dislike consequence: starting from a live room in which
the movie has no votes by anyone else, after the participant submits
`like` and then `dislike`, `getResults` lists the movie with
`likes = 0`, `dislikes = 1` and a single counted voter. -/
theorem submitVote_scenario (db : DB) (roomId movieId : Nat) (pid : String)
    (now1 now2 : Int) (room : Room)
    (hvid : (db.votes.map VoteRow.id).Nodup)
    (hfresh : ∀ v ∈ db.votes, v.id < db.nextId)
    (hlen1 : (tripleVotes db roomId movieId pid).length ≤ 1)
    (hroom : findRoom db roomId = some room)
    (hactive : room.status = Status.active)
    (hlive1 : ¬ room.expiresAt < now1)
    (hlive2 : ¬ room.expiresAt < now2)
    (hpart : (findParticipant db roomId pid).isSome)
    (hmovie : movieId ∈ db.movies)
    (honly : ∀ v ∈ roomVotes db roomId, v.movieId = movieId → v.participantId = pid) :
    ∃ e ∈ getResults ((submitVote ((submitVote db roomId movieId pid .like now1).2)
        roomId movieId pid .dislike now2).2) roomId,
      e.movieId = movieId ∧ e.likes = 0 ∧ e.dislikes = 1 ∧ e.totalVotes = 1 := by
  obtain ⟨id1, u1, db1, heq1, _, _, htrip1, hframe1, hrooms1, hparts1, hmovies1, hvid1, hfresh1⟩ :=
    submitVote_spec db roomId movieId pid .like now1 room hvid hfresh hlen1 hroom
      hactive hlive1 hpart hmovie
  have hdb1 : (submitVote db roomId movieId pid .like now1).2 = db1 := by rw [heq1]
  have hroom1 : findRoom db1 roomId = some room := by
    rw [findRoom, hrooms1]
    exact hroom
  have hpart1 : (findParticipant db1 roomId pid).isSome := by
    rw [findParticipant, roomParts, hparts1]
    exact hpart
  have hlen1' : (tripleVotes db1 roomId movieId pid).length ≤ 1 := by
    rw [htrip1]
    exact Nat.le_refl 1
  have hmovie1 : movieId ∈ db1.movies := by
    rw [hmovies1]
    exact hmovie
  obtain ⟨id2, u2, db2, heq2, _, _, htrip2, hframe2, hrooms2, hparts2, hmovies2, hvid2, hfresh2⟩ :=
    submitVote_spec db1 roomId movieId pid .dislike now2 room hvid1 hfresh1 hlen1' hroom1
      hactive hlive2 hpart1 hmovie1
  have hdb2 : (submitVote db1 roomId movieId pid .dislike now2).2 = db2 := by rw [heq2]
  rw [hdb1, hdb2]
  set row : VoteRow := ⟨id2, roomId, movieId, pid, .dislike, now2⟩ with hrow
  have hrowmem : row ∈ roomVotes db2 roomId := by
    have : row ∈ tripleVotes db2 roomId movieId pid := by
      rw [htrip2]
      exact List.mem_singleton.mpr rfl
    exact List.mem_of_mem_filter this
  have hvotesOn : votesOn movieId (roomVotes db2 roomId) = [row] := by
    apply eq_singleton_of_unique
    · intro w hw
      have hwm : w.movieId = movieId := by
        have := List.of_mem_filter hw
        simpa using this
      have hwroom : w ∈ roomVotes db2 roomId := List.mem_of_mem_filter hw
      have hwtrip : w ∈ tripleVotes db2 roomId movieId w.participantId := by
        rw [tripleVotes]
        refine List.mem_filter.mpr ⟨hwroom, ?_⟩
        simp [hwm]
      by_cases hp : w.participantId = pid
      · rw [hp, htrip2] at hwtrip
        exact List.mem_singleton.mp hwtrip
      · exfalso
        rw [hframe2 roomId movieId w.participantId (fun hc => hp hc.2.2)] at hwtrip
        rw [hframe1 roomId movieId w.participantId (fun hc => hp hc.2.2)] at hwtrip
        have hwdb : w ∈ roomVotes db roomId := List.mem_of_mem_filter hwtrip
        exact hp (honly w hwdb hwm)
    · rw [votesOn]
      refine List.mem_filter.mpr ⟨hrowmem, ?_⟩
      simp
    · have hsub : List.Sublist (votesOn movieId (roomVotes db2 roomId)) db2.votes :=
        List.Sublist.trans (List.filter_sublist _) (List.filter_sublist _)
      have hnd : ((votesOn movieId (roomVotes db2 roomId)).map VoteRow.id).Nodup :=
        hvid2.sublist (hsub.map VoteRow.id)
      exact List.Nodup.of_map _ hnd
  have hmem : ∃ e ∈ getResults db2 roomId, e.movieId = movieId := by
    have h1 : movieId ∈ (getResults db2 roomId).map ResultEntry.movieId :=
      (getResults_movieIds db2 roomId).2 movieId |>.mpr
        ⟨row, hrowmem, rfl⟩
    obtain ⟨e, he, heq⟩ := List.mem_map.mp h1
    exact ⟨e, he, heq⟩
  obtain ⟨e, he, hem⟩ := hmem
  obtain ⟨helikes, hedislikes, hevoters, _, _⟩ := getResults_entry_fields db2 roomId e he
  refine ⟨e, he, hem, ?_, ?_, ?_⟩
  · rw [helikes, hem, likesFor, hvotesOn]
    simp [hrow]
  · rw [hedislikes, hem, dislikesFor, hvotesOn]
    simp [hrow]
  · rw [hevoters, hem, distinctVotersFor, hvotesOn]
    simp [hrow]

/-- C3: `submitVote` has upsert semantics.  For every call on an
existing, active, unexpired room by a participant for a stored movie —
with distinct fresh vote ids and at most one pre-existing row for the
`(roomId, movieId, participantId)` triple — the call succeeds; it
returns `updated = true` iff a row for the triple already existed, in
which case that row is overwritten in place (same id, new `voteType`
and `votedAt`); otherwise a fresh row is inserted and `updated = false`;
afterwards exactly one row holds the latest `voteType` for the triple
and all other rows and tables are untouched.  Consequently (second
conjunct), after a participant votes like then dislike on a movie no
one else voted on, `getResults` shows `likes = 0`, `dislikes = 1` and
counts that participant once. -/
theorem C3_submitVote_upsert :
    (∀ (db : DB) (roomId movieId : Nat) (pid : String) (vt : VoteType) (now : Int)
      (room : Room),
      (db.votes.map VoteRow.id).Nodup →
      (∀ v ∈ db.votes, v.id < db.nextId) →
      (tripleVotes db roomId movieId pid).length ≤ 1 →
      findRoom db roomId = some room →
      room.status = Status.active →
      ¬ room.expiresAt < now →
      (findParticipant db roomId pid).isSome →
      movieId ∈ db.movies →
      ∃ voteId upd db',
        submitVote db roomId movieId pid vt now = (.ok (voteId, upd), db') ∧
        (upd = true ↔ tripleVotes db roomId movieId pid ≠ []) ∧
        (∀ w ∈ tripleVotes db roomId movieId pid, voteId = w.id) ∧
        tripleVotes db' roomId movieId pid =
          [{ id := voteId, roomId := roomId, movieId := movieId, participantId := pid,
             voteType := vt, votedAt := now }] ∧
        (∀ r m p, ¬(r = roomId ∧ m = movieId ∧ p = pid) →
          tripleVotes db' r m p = tripleVotes db r m p) ∧
        db'.rooms = db.rooms ∧ db'.roomParticipants = db.roomParticipants ∧
        db'.movies = db.movies ∧
        (db'.votes.map VoteRow.id).Nodup ∧ (∀ v ∈ db'.votes, v.id < db'.nextId)) ∧
    (∀ (db : DB) (roomId movieId : Nat) (pid : String) (now1 now2 : Int) (room : Room),
      (db.votes.map VoteRow.id).Nodup →
      (∀ v ∈ db.votes, v.id < db.nextId) →
      (tripleVotes db roomId movieId pid).length ≤ 1 →
      findRoom db roomId = some room →
      room.status = Status.active →
      ¬ room.expiresAt < now1 →
      ¬ room.expiresAt < now2 →
      (findParticipant db roomId pid).isSome →
      movieId ∈ db.movies →
      (∀ v ∈ roomVotes db roomId, v.movieId = movieId → v.participantId = pid) →
      ∃ e ∈ getResults ((submitVote ((submitVote db roomId movieId pid .like now1).2)
          roomId movieId pid .dislike now2).2) roomId,
        e.movieId = movieId ∧ e.likes = 0 ∧ e.dislikes = 1 ∧ e.totalVotes = 1) :=
  ⟨fun db roomId movieId pid vt now room h1 h2 h3 h4 h5 h6 h7 h8 =>
    submitVote_spec db roomId movieId pid vt now room h1 h2 h3 h4 h5 h6 h7 h8,
   fun db roomId movieId pid now1 now2 room h1 h2 h3 h4 h5 h6 h7 h8 h9 h10 =>
    submitVote_scenario db roomId movieId pid now1 now2 room h1 h2 h3 h4 h5 h6 h7 h8 h9 h10⟩

/-- The room of the concrete upsert witness. -/
def c3room : Room := ⟨0, "1000", "action", "h", .active, 1000000, 10, 0⟩

/-- Concrete store for the upsert witness: one active room, participant
"h", movie 100, and an existing like row by "h" on movie 100. -/
def c3db : DB :=
  { rooms := [c3room],
    roomParticipants := [⟨1, 0, "h", 0, none⟩],
    votes := [⟨2, 0, 100, "h", .like, 5⟩],
    movies := [100], nextId := 3 }

/-- Witness for C3 at a concrete store: the hypotheses hold, the
dislike resubmission overwrites in place, and like-then-dislike leaves
`likes = 0`, `dislikes = 1`, one counted voter. -/
theorem C3_submitVote_upsert_witness :
    ((c3db.votes.map VoteRow.id).Nodup ∧ (∀ v ∈ c3db.votes, v.id < c3db.nextId) ∧
      (tripleVotes c3db 0 100 "h").length ≤ 1 ∧ findRoom c3db 0 = some c3room ∧
      c3room.status = Status.active ∧ ¬ c3room.expiresAt < (6 : Int) ∧
      (findParticipant c3db 0 "h").isSome ∧ 100 ∈ c3db.movies) ∧
    (∃ voteId upd db',
      submitVote c3db 0 100 "h" VoteType.dislike 6 = (.ok (voteId, upd), db') ∧
      (upd = true ↔ tripleVotes c3db 0 100 "h" ≠ []) ∧
      (∀ w ∈ tripleVotes c3db 0 100 "h", voteId = w.id) ∧
      tripleVotes db' 0 100 "h" =
        [{ id := voteId, roomId := 0, movieId := 100, participantId := "h",
           voteType := VoteType.dislike, votedAt := 6 }] ∧
      (∀ r m p, ¬(r = 0 ∧ m = 100 ∧ p = "h") →
        tripleVotes db' r m p = tripleVotes c3db r m p) ∧
      db'.rooms = c3db.rooms ∧ db'.roomParticipants = c3db.roomParticipants ∧
      db'.movies = c3db.movies ∧
      (db'.votes.map VoteRow.id).Nodup ∧ (∀ v ∈ db'.votes, v.id < db'.nextId)) ∧
    (∃ e ∈ getResults ((submitVote ((submitVote c3db 0 100 "h" .like 5).2)
        0 100 "h" .dislike 6).2) 0,
      e.movieId = 100 ∧ e.likes = 0 ∧ e.dislikes = 1 ∧ e.totalVotes = 1) :=
  ⟨⟨by decide, by decide, by decide, by decide, rfl, by decide, by decide, by decide⟩,
   C3_submitVote_upsert.1 c3db 0 100 "h" VoteType.dislike 6 c3room (by decide) (by decide)
     (by decide) (by decide) rfl (by decide) (by decide) (by decide),
   C3_submitVote_upsert.2 c3db 0 100 "h" 5 6 c3room (by decide) (by decide)
     (by decide) (by decide) rfl (by decide) (by decide) (by decide) (by decide) (by decide)⟩

/-! ## Operation sequences over the store

For the sequence invariants (capacity, code uniqueness, status
monotonicity) the client calls are modelled as a list of operations
folded over the store; a call's return value is irrelevant to the
invariants and a failed call leaves exactly the writes it performed
(only the lazy expiry patch) in place. -/

/-- One client call. -/
inductive Op where
  | createRoom (category hostId : String) (maxParticipants : Option Int)
      (gen : Nat → String) (now : Int)
  | joinRoom (roomId : Nat) (participantId : String) (now : Int)
  | joinRoomByCode (roomCode : String) (participantId : String) (now : Int)
  | leaveRoom (roomId : Nat) (participantId : String)
  | submitVote (roomId movieId : Nat) (participantId : String) (voteType : VoteType)
      (now : Int)
  | markVotingCompletePresence (roomId : Nat) (participantId : String) (now : Int)
  | markVotingCompleteVoting (roomId : Nat) (participantName : String) (now : Int)
  | resetVotingCompletion (roomId : Nat) (participantId : String)

/-- Apply one call to the store. -/
def applyOp (db : DB) : Op → DB
  | .createRoom c h mp gen now => (createRoom db c h mp gen now).2
  | .joinRoom r p now => (joinRoom db r p now).2
  | .joinRoomByCode c p now => (joinRoomByCode db c p now).2
  | .leaveRoom r p => (leaveRoom db r p).2
  | .submitVote r m p vt now => (submitVote db r m p vt now).2
  | .markVotingCompletePresence r p now => (Presence.markVotingComplete db r p now).2
  | .markVotingCompleteVoting r p now => (Voting.markVotingComplete db r p now).2
  | .resetVotingCompletion r p => (resetVotingCompletion db r p).2

/-- Apply a sequence of calls to the store. -/
def runOps (db : DB) (ops : List Op) : DB := ops.foldl applyOp db

/-- A `createRoom` call whose `maxParticipants` argument (defaulted to
10) is at least 1; every other call qualifies trivially. -/
def Op.goodCreate : Op → Prop
  | .createRoom _ _ mp _ _ => 1 ≤ mp.getD 10
  | _ => True

/-- Whether the call is a `leaveRoom`. -/
def Op.isLeave : Op → Prop
  | .leaveRoom _ _ => True
  | _ => False

/-- Whether the call is a `createRoom`. -/
def Op.isCreate : Op → Prop
  | .createRoom _ _ _ _ _ => True
  | _ => False

/-- Well-formedness carried through every operation: room ids are
distinct and below `nextId`, and membership rows point below `nextId`. -/
def DB.wf (db : DB) : Prop :=
  (∀ r ∈ db.rooms, r.id < db.nextId) ∧
  (db.rooms.map Room.id).Nodup ∧
  (∀ p ∈ db.roomParticipants, p.roomId < db.nextId)

/-- The capacity invariant of the spec: each room's membership count is
at most its `maxParticipants`. -/
def capInv (db : DB) : Prop :=
  ∀ r ∈ db.rooms, ((roomParts db r.id).length : Int) ≤ r.maxParticipants

/-! ### Transition shapes of each mutation -/

theorem markVotingCompletePresence_db (db : DB) (roomId : Nat) (pid : String) (now : Int) :
    (Presence.markVotingComplete db roomId pid now).2 = db ∨
    ∃ part : RoomParticipant, (Presence.markVotingComplete db roomId pid now).2 =
      { db with roomParticipants := patchCompletion db.roomParticipants part.id (some now) } := by
  unfold Presence.markVotingComplete
  cases hfind : findParticipant db roomId pid with
  | none => left; rfl
  | some part =>
    dsimp only
    split
    · left; rfl
    · right; exact ⟨part, rfl⟩

theorem markVotingCompleteVoting_db (db : DB) (roomId : Nat) (pid : String) (now : Int) :
    (Voting.markVotingComplete db roomId pid now).2 = db ∨
    ∃ part : RoomParticipant, (Voting.markVotingComplete db roomId pid now).2 =
      { db with roomParticipants := patchCompletion db.roomParticipants part.id (some now) } := by
  unfold Voting.markVotingComplete
  cases hfind : findParticipant db roomId pid with
  | none => left; rfl
  | some part => right; exact ⟨part, rfl⟩

theorem resetVotingCompletion_db (db : DB) (roomId : Nat) (pid : String) :
    (resetVotingCompletion db roomId pid).2 = db ∨
    ∃ part : RoomParticipant, (resetVotingCompletion db roomId pid).2 =
      { db with roomParticipants := patchCompletion db.roomParticipants part.id none } := by
  unfold resetVotingCompletion
  cases hfind : findParticipant db roomId pid with
  | none => left; rfl
  | some part => right; exact ⟨part, rfl⟩

theorem leaveRoom_db (db : DB) (roomId : Nat) (pid : String) :
    (leaveRoom db roomId pid).2 = db ∨
    ∃ (part : RoomParticipant) (keep : List RoomParticipant),
      keep = db.roomParticipants.filter (fun p => decide (p.id ≠ part.id)) ∧
      ((leaveRoom db roomId pid).2 = { db with roomParticipants := keep } ∨
        (leaveRoom db roomId pid).2 =
          { db with roomParticipants := keep, rooms := patchRoomStatus db.rooms roomId .completed }) := by
  unfold leaveRoom
  cases hfind : findParticipant db roomId pid with
  | none => left; rfl
  | some part =>
    right
    refine ⟨part, db.roomParticipants.filter (fun p => decide (p.id ≠ part.id)), rfl, ?_⟩
    dsimp only
    split
    · right; rfl
    · left; rfl

theorem joinRoom_db (db : DB) (roomId : Nat) (pid : String) (now : Int) :
    (joinRoom db roomId pid now).2 = db ∨
    (∃ room : Room, findRoom db roomId = some room ∧ room.status = .active ∧
      (joinRoom db roomId pid now).2 =
        { db with rooms := patchRoomStatus db.rooms room.id .expired }) ∨
    (∃ room : Room, findRoom db roomId = some room ∧ room.status = .active ∧
      ¬ room.maxParticipants ≤ ((roomParts db roomId).length : Int) ∧
      (joinRoom db roomId pid now).2 =
        { db with roomParticipants := db.roomParticipants ++ [(⟨db.nextId, roomId, pid, now, none⟩ : RoomParticipant)], nextId := db.nextId + 1 }) := by
  unfold joinRoom
  cases hfind : findRoom db roomId with
  | none => left; rfl
  | some room =>
    dsimp only
    split
    · left; rfl
    · rename_i hst
      have hactive : room.status = Status.active := not_ne_iff.mp hst
      split
      · right; left
        exact ⟨room, rfl, hactive, rfl⟩
      · split
        · left; rfl
        · split
          · left; rfl
          · rename_i hcap
            right; right
            exact ⟨room, rfl, hactive, hcap, rfl⟩

theorem joinRoomByCode_db (db : DB) (roomCode : String) (pid : String) (now : Int) :
    (joinRoomByCode db roomCode pid now).2 = db ∨
    (∃ room : Room, db.rooms.find? (fun r => decide (r.code = roomCode)) = some room ∧
      room.status = .active ∧
      (joinRoomByCode db roomCode pid now).2 =
        { db with rooms := patchRoomStatus db.rooms room.id .expired }) ∨
    (∃ room : Room, db.rooms.find? (fun r => decide (r.code = roomCode)) = some room ∧
      room.status = .active ∧
      ¬ room.maxParticipants ≤ ((roomParts db room.id).length : Int) ∧
      (joinRoomByCode db roomCode pid now).2 =
        { db with roomParticipants := db.roomParticipants ++ [(⟨db.nextId, room.id, pid, now, none⟩ : RoomParticipant)], nextId := db.nextId + 1 }) := by
  unfold joinRoomByCode
  cases hfind : db.rooms.find? (fun r => decide (r.code = roomCode)) with
  | none => left; rfl
  | some room =>
    dsimp only
    split
    · left; rfl
    · rename_i hst
      have hactive : room.status = Status.active := not_ne_iff.mp hst
      split
      · right; left
        exact ⟨room, rfl, hactive, rfl⟩
      · split
        · left; rfl
        · split
          · left; rfl
          · rename_i hcap
            right; right
            exact ⟨room, rfl, hactive, hcap, rfl⟩

theorem submitVote_db (db : DB) (roomId movieId : Nat) (pid : String)
    (vt : VoteType) (now : Int) :
    (submitVote db roomId movieId pid vt now).2 = db ∨
    (∃ room : Room, findRoom db roomId = some room ∧ room.status = .active ∧
      (submitVote db roomId movieId pid vt now).2 =
        { db with rooms := patchRoomStatus db.rooms room.id .expired }) ∨
    (∃ x : VoteRow, (submitVote db roomId movieId pid vt now).2 =
      { db with votes := patchVoteRow db.votes x.id vt now }) ∨
    ((submitVote db roomId movieId pid vt now).2 =
      { db with votes := db.votes ++ [(⟨db.nextId, roomId, movieId, pid, vt, now⟩ : VoteRow)], nextId := db.nextId + 1 }) := by
  unfold submitVote
  cases hfind : findRoom db roomId with
  | none => left; rfl
  | some room =>
    dsimp only
    split
    · left; rfl
    · rename_i hst
      have hactive : room.status = Status.active := not_ne_iff.mp hst
      split
      · right; left
        exact ⟨room, rfl, hactive, rfl⟩
      · split
        · left; rfl
        · split
          · split
            · rename_i x _
              right; right; left
              exact ⟨x, rfl⟩
            · right; right; right
              rfl
          · left; rfl

theorem codeLoop_le (rooms : List Room) (gen : Nat → String) :
    ∀ (fuel attempts : Nat) (code : String),
      (codeLoop rooms gen fuel code attempts).2 ≤ attempts + fuel ∧
      ((codeLoop rooms gen fuel code attempts).2 < attempts + fuel →
        hasCode rooms (codeLoop rooms gen fuel code attempts).1 = false)
  | 0, attempts, code => by
    constructor
    · exact Nat.le_refl _
    · intro h
      exact absurd h (Nat.lt_irrefl _)
  | fuel + 1, attempts, code => by
    unfold codeLoop
    by_cases hc : hasCode rooms code
    · rw [if_pos hc]
      obtain ⟨h1, h2⟩ := codeLoop_le rooms gen fuel (attempts + 1) (gen (attempts + 1))
      constructor
      · omega
      · intro h
        exact h2 (by omega)
    · rw [if_neg hc]
      constructor
      · omega
      · intro _
        exact Bool.eq_false_iff.mpr hc

/-- The retry loop exhausts its `fuel` attempts exactly when every code
it examines — `gen attempts`, `gen (attempts+1)`, … — collides with a
stored room. -/
theorem codeLoop_fail_iff (rooms : List Room) (gen : Nat → String) :
    ∀ (fuel attempts : Nat),
      ((codeLoop rooms gen fuel (gen attempts) attempts).2 = attempts + fuel ↔
        ∀ i, attempts ≤ i → i < attempts + fuel → hasCode rooms (gen i) = true)
  | 0, attempts => by
    constructor
    · intro _ i h1 h2
      omega
    · intro _
      rfl
  | fuel + 1, attempts => by
    unfold codeLoop
    by_cases hc : hasCode rooms (gen attempts)
    · rw [if_pos hc]
      have ih := codeLoop_fail_iff rooms gen fuel (attempts + 1)
      constructor
      · intro h i h1 h2
        rcases Nat.eq_or_lt_of_le h1 with rfl | h1'
        · exact hc
        · exact (ih.mp (by omega)) i h1' (by omega)
      · intro h
        have : (codeLoop rooms gen fuel (gen (attempts + 1)) (attempts + 1)).2 =
            (attempts + 1) + fuel := by
          apply ih.mpr
          intro i h1 h2
          exact h i (by omega) (by omega)
        omega
    · rw [if_neg hc]
      constructor
      · intro h
        omega
      · intro h
        exact absurd (h attempts (Nat.le_refl _) (by omega)) (Bool.eq_false_iff.mpr hc ▸ by simp [Bool.eq_false_iff.mpr hc])

theorem createRoom_db (db : DB) (c h : String) (mp : Option Int)
    (gen : Nat → String) (now : Int) :
    (createRoom db c h mp gen now).2 = db ∨
    (∃ code : String, hasCode db.rooms code = false ∧
      (createRoom db c h mp gen now).2 =
        { db with rooms := db.rooms ++ [(⟨db.nextId, code, c, h, .active, now + 24 * 60 * 60 * 1000, mp.getD 10, now⟩ : Room)], roomParticipants := db.roomParticipants ++ [(⟨db.nextId + 1, db.nextId, h, now, none⟩ : RoomParticipant)], nextId := db.nextId + 2 }) := by
  unfold createRoom
  dsimp only
  split
  · left; rfl
  · rename_i hne
    right
    refine ⟨(codeLoop db.rooms gen 10 (gen 0) 0).1, ?_, rfl⟩
    obtain ⟨h1, h2⟩ := codeLoop_le db.rooms gen 10 0 (gen 0)
    exact h2 (by omega)

/-! ### Helper facts about the store patches -/

theorem patchRoomStatus_map_id (rooms : List Room) (i : Nat) (s : Status) :
    (patchRoomStatus rooms i s).map Room.id = rooms.map Room.id := by
  rw [patchRoomStatus, List.map_map]
  apply List.map_congr_left
  intro r _
  by_cases h : r.id = i <;> simp [h]

theorem patchRoomStatus_map_code (rooms : List Room) (i : Nat) (s : Status) :
    (patchRoomStatus rooms i s).map Room.code = rooms.map Room.code := by
  rw [patchRoomStatus, List.map_map]
  apply List.map_congr_left
  intro r _
  by_cases h : r.id = i <;> simp [h]

theorem mem_patchRoomStatus {rooms : List Room} {i : Nat} {s : Status} {r' : Room} :
    r' ∈ patchRoomStatus rooms i s →
    ∃ r ∈ rooms, r' = r ∨ (r.id = i ∧ r' = { r with status := s }) := by
  intro h
  rw [patchRoomStatus] at h
  obtain ⟨r, hr, rfl⟩ := List.mem_map.mp h
  refine ⟨r, hr, ?_⟩
  by_cases hid : r.id = i
  · right; exact ⟨hid, by rw [if_pos hid]⟩
  · left; rw [if_neg hid]

theorem patchRoomStatus_mem_of_mem {rooms : List Room} {i : Nat} {s : Status} {r : Room}
    (hr : r ∈ rooms) :
    (if r.id = i then { r with status := s } else r) ∈ patchRoomStatus rooms i s := by
  rw [patchRoomStatus]
  exact List.mem_map_of_mem _ hr

theorem filter_patchCompletion_length (parts : List RoomParticipant) (pid : Nat)
    (t : Option Int) (r : Nat) :
    ((patchCompletion parts pid t).filter (fun p => decide (p.roomId = r))).length =
      (parts.filter (fun p => decide (p.roomId = r))).length := by
  rw [patchCompletion, List.filter_map]
  rw [List.length_map]
  congr 1
  apply List.filter_congr
  intro p _
  by_cases h : p.id = pid <;> simp [h]

theorem mem_patchCompletion_roomId {parts : List RoomParticipant} {pid : Nat}
    {t : Option Int} {q : RoomParticipant} (hq : q ∈ patchCompletion parts pid t) :
    ∃ p ∈ parts, q.roomId = p.roomId := by
  rw [patchCompletion] at hq
  obtain ⟨p, hp, rfl⟩ := List.mem_map.mp hq
  refine ⟨p, hp, ?_⟩
  by_cases h : p.id = pid <;> simp [h]

theorem findRoom_mem {db : DB} {roomId : Nat} {room : Room} :
    findRoom db roomId = some room → room ∈ db.rooms ∧ room.id = roomId := by
  intro h
  refine ⟨List.mem_of_find?_eq_some h, ?_⟩
  have := List.find?_some h
  simpa using this

theorem findByCode_mem {db : DB} {code : String} {room : Room} :
    db.rooms.find? (fun r => decide (r.code = code)) = some room →
      room ∈ db.rooms ∧ room.code = code := by
  intro h
  refine ⟨List.mem_of_find?_eq_some h, ?_⟩
  have := List.find?_some h
  simpa using this

theorem filter_append_participant (parts : List RoomParticipant) (q : RoomParticipant)
    (r : Nat) :
    ((parts ++ [q]).filter (fun p => decide (p.roomId = r))).length =
      (parts.filter (fun p => decide (p.roomId = r))).length +
        (if q.roomId = r then 1 else 0) := by
  rw [List.filter_append]
  by_cases h : q.roomId = r
  · rw [filter_singleton_pos (by simp [h]), if_pos h, List.length_append]
    rfl
  · rw [filter_singleton_neg (by simp [h]), if_neg h, List.append_nil]
    rfl

/-! ### Preservation of well-formedness and the capacity invariant -/

theorem wf_capInv_patchRooms (db : DB) (i : Nat) (s : Status)
    (hwf : db.wf) (hcap : capInv db) :
    DB.wf { db with rooms := patchRoomStatus db.rooms i s } ∧
      capInv { db with rooms := patchRoomStatus db.rooms i s } := by
  obtain ⟨hwf1, hwf2, hwf3⟩ := hwf
  refine ⟨⟨?_, ?_, hwf3⟩, ?_⟩
  · intro r' hr'
    obtain ⟨r, hr, hcase⟩ := mem_patchRoomStatus hr'
    have hid : r'.id = r.id := by rcases hcase with rfl | ⟨_, rfl⟩ <;> rfl
    show r'.id < db.nextId
    rw [hid]
    exact hwf1 r hr
  · show ((patchRoomStatus db.rooms i s).map Room.id).Nodup
    rw [patchRoomStatus_map_id]
    exact hwf2
  · intro r' hr'
    obtain ⟨r, hr, hcase⟩ := mem_patchRoomStatus hr'
    have hid : r'.id = r.id := by rcases hcase with rfl | ⟨_, rfl⟩ <;> rfl
    have hmax : r'.maxParticipants = r.maxParticipants := by
      rcases hcase with rfl | ⟨_, rfl⟩ <;> rfl
    have hparts : roomParts { db with rooms := patchRoomStatus db.rooms i s } r'.id =
        roomParts db r.id := by
      rw [roomParts, roomParts, hid]
    rw [hparts, hmax]
    exact hcap r hr

theorem wf_capInv_patchCompletion (db : DB) (pid : Nat) (t : Option Int)
    (hwf : db.wf) (hcap : capInv db) :
    DB.wf { db with roomParticipants := patchCompletion db.roomParticipants pid t } ∧
      capInv { db with roomParticipants := patchCompletion db.roomParticipants pid t } := by
  obtain ⟨hwf1, hwf2, hwf3⟩ := hwf
  refine ⟨⟨hwf1, hwf2, ?_⟩, ?_⟩
  · intro q hq
    obtain ⟨p, hp, hroom⟩ := mem_patchCompletion_roomId hq
    show q.roomId < db.nextId
    rw [hroom]
    exact hwf3 p hp
  · intro r hr
    have : roomParts { db with roomParticipants := patchCompletion db.roomParticipants pid t }
        r.id = (patchCompletion db.roomParticipants pid t).filter
          (fun p => decide (p.roomId = r.id)) := rfl
    rw [capInv] at hcap
    show ((((patchCompletion db.roomParticipants pid t).filter
      (fun p => decide (p.roomId = r.id))).length : Int)) ≤ r.maxParticipants
    rw [filter_patchCompletion_length]
    exact hcap r hr

theorem wf_capInv_insert_participant (db : DB) (room : Room) (rid : Nat) (pid : String)
    (now : Int) (hroommem : room ∈ db.rooms) (hid : room.id = rid)
    (hwf : db.wf) (hcap : capInv db)
    (hcapok : ¬ room.maxParticipants ≤ ((roomParts db rid).length : Int)) :
    DB.wf { db with roomParticipants := db.roomParticipants ++ [(⟨db.nextId, rid, pid, now, none⟩ : RoomParticipant)], nextId := db.nextId + 1 } ∧
      capInv { db with roomParticipants := db.roomParticipants ++ [(⟨db.nextId, rid, pid, now, none⟩ : RoomParticipant)], nextId := db.nextId + 1 } := by
  obtain ⟨hwf1, hwf2, hwf3⟩ := hwf
  refine ⟨⟨?_, hwf2, ?_⟩, ?_⟩
  · intro r hr
    exact Nat.lt_trans (hwf1 r hr) (Nat.lt_succ_self _)
  · intro q hq
    replace hq : q ∈ db.roomParticipants ++
      [(⟨db.nextId, rid, pid, now, none⟩ : RoomParticipant)] := hq
    rw [List.mem_append] at hq
    show q.roomId < db.nextId + 1
    rcases hq with hq | hq
    · exact Nat.lt_trans (hwf3 q hq) (Nat.lt_succ_self _)
    · rw [List.mem_singleton] at hq
      subst hq
      show rid < db.nextId + 1
      rw [← hid]
      exact Nat.lt_trans (hwf1 room hroommem) (Nat.lt_succ_self _)
  · intro r hr
    show ((((db.roomParticipants ++ [(⟨db.nextId, rid, pid, now, none⟩ : RoomParticipant)]).filter
      (fun p => decide (p.roomId = r.id))).length : Int)) ≤ r.maxParticipants
    rw [filter_append_participant]
    by_cases h : rid = r.id
    · have hreq : r = room := List.inj_on_of_nodup_map hwf2 hr hroommem (h ▸ hid).symm
      subst hreq
      rw [if_pos h]
      rw [roomParts, h] at hcapok
      omega
    · rw [if_neg h]
      have := hcap r hr
      rw [roomParts] at this
      simpa using this

theorem wf_capInv_applyOp (db : DB) (op : Op) (hgood : op.goodCreate)
    (hwf : db.wf) (hcap : capInv db) : (applyOp db op).wf ∧ capInv (applyOp db op) := by
  cases op with
  | createRoom c h mp gen now =>
    obtain ⟨hwf1, hwf2, hwf3⟩ := hwf
    rcases createRoom_db db c h mp gen now with heq | ⟨code, hfree, heq⟩
    · rw [applyOp, heq]
      exact ⟨⟨hwf1, hwf2, hwf3⟩, hcap⟩
    · rw [applyOp, heq]
      have hmax : (1 : Int) ≤ mp.getD 10 := hgood
      refine ⟨⟨?_, ?_, ?_⟩, ?_⟩
      · intro r hr
        replace hr : r ∈ db.rooms ++ [(⟨db.nextId, code, c, h, .active,
          now + 24 * 60 * 60 * 1000, mp.getD 10, now⟩ : Room)] := hr
        rw [List.mem_append] at hr
        show r.id < db.nextId + 2
        rcases hr with hr | hr
        · have := hwf1 r hr
          omega
        · rw [List.mem_singleton] at hr
          subst hr
          show db.nextId < db.nextId + 2
          omega
      · show ((db.rooms ++ [(⟨db.nextId, code, c, h, .active,
          now + 24 * 60 * 60 * 1000, mp.getD 10, now⟩ : Room)]).map Room.id).Nodup
        rw [List.map_append, List.nodup_append]
        refine ⟨hwf2, List.nodup_singleton _, ?_⟩
        intro i hi hi'
        simp only [List.map_cons, List.map_nil, List.mem_singleton] at hi'
        obtain ⟨r, hr, rfl⟩ := List.mem_map.mp hi
        have := hwf1 r hr
        rw [hi'] at this
        exact Nat.lt_irrefl _ this
      · intro q hq
        replace hq : q ∈ db.roomParticipants ++
          [(⟨db.nextId + 1, db.nextId, h, now, none⟩ : RoomParticipant)] := hq
        rw [List.mem_append] at hq
        show q.roomId < db.nextId + 2
        rcases hq with hq | hq
        · have := hwf3 q hq
          omega
        · rw [List.mem_singleton] at hq
          subst hq
          show db.nextId < db.nextId + 2
          omega
      · intro r hr
        replace hr : r ∈ db.rooms ++ [(⟨db.nextId, code, c, h, .active,
          now + 24 * 60 * 60 * 1000, mp.getD 10, now⟩ : Room)] := hr
        rw [List.mem_append] at hr
        show ((((db.roomParticipants ++ [(⟨db.nextId + 1, db.nextId, h, now, none⟩ : RoomParticipant)]).filter
          (fun p => decide (p.roomId = r.id))).length : Int)) ≤ r.maxParticipants
        rw [filter_append_participant]
        rcases hr with hr | hr
        · have hne : db.nextId ≠ r.id := by
            have := hwf1 r hr
            omega
          rw [if_neg hne]
          have := hcap r hr
          rw [roomParts] at this
          simpa using this
        · rw [List.mem_singleton] at hr
          subst hr
          rw [if_pos rfl]
          have hempty : (db.roomParticipants.filter
              (fun p => decide (p.roomId = (⟨db.nextId, code, c, h, .active,
                now + 24 * 60 * 60 * 1000, mp.getD 10, now⟩ : Room).id))).length = 0 := by
            rw [List.length_eq_zero, List.filter_eq_nil_iff]
            intro q hq
            have := hwf3 q hq
            simp only [decide_eq_true_eq]
            show ¬ q.roomId = db.nextId
            omega
          rw [hempty]
          show (1 : Int) ≤ mp.getD 10
          exact hmax
  | joinRoom roomId pid now =>
    rcases joinRoom_db db roomId pid now with heq | ⟨room, hfind, _, heq⟩ |
      ⟨room, hfind, _, hcapok, heq⟩
    · rw [applyOp, heq]
      exact ⟨hwf, hcap⟩
    · rw [applyOp, heq]
      exact wf_capInv_patchRooms db room.id .expired hwf hcap
    · rw [applyOp, heq]
      obtain ⟨hmem, hid⟩ := findRoom_mem hfind
      exact wf_capInv_insert_participant db room roomId pid now hmem hid hwf hcap hcapok
  | joinRoomByCode code pid now =>
    rcases joinRoomByCode_db db code pid now with heq | ⟨room, hfind, _, heq⟩ |
      ⟨room, hfind, _, hcapok, heq⟩
    · rw [applyOp, heq]
      exact ⟨hwf, hcap⟩
    · rw [applyOp, heq]
      exact wf_capInv_patchRooms db room.id .expired hwf hcap
    · rw [applyOp, heq]
      obtain ⟨hmem, _⟩ := findByCode_mem hfind
      exact wf_capInv_insert_participant db room room.id pid now hmem rfl hwf hcap hcapok
  | leaveRoom roomId pid =>
    obtain ⟨hwf1, hwf2, hwf3⟩ := hwf
    rcases leaveRoom_db db roomId pid with heq | ⟨part, keep, hkeep, heq | heq⟩
    · rw [applyOp, heq]
      exact ⟨⟨hwf1, hwf2, hwf3⟩, hcap⟩
    all_goals rw [applyOp, heq]
    all_goals subst hkeep
    · refine ⟨⟨hwf1, hwf2, ?_⟩, ?_⟩
      · intro q hq
        exact hwf3 q (List.mem_of_mem_filter hq)
      · intro r hr
        have hsub : List.Sublist
            ((db.roomParticipants.filter (fun p => decide (p.id ≠ part.id))).filter
              (fun p => decide (p.roomId = r.id)))
            (db.roomParticipants.filter (fun p => decide (p.roomId = r.id))) :=
          List.Sublist.filter _ (List.filter_sublist _)
        have hlen := hsub.length_le
        have := hcap r hr
        rw [roomParts] at this
        show ((((db.roomParticipants.filter (fun p => decide (p.id ≠ part.id))).filter
          (fun p => decide (p.roomId = r.id))).length : Int)) ≤ r.maxParticipants
        omega
    · have hwfk : DB.wf { db with roomParticipants :=
          db.roomParticipants.filter (fun p => decide (p.id ≠ part.id)) } := by
        refine ⟨hwf1, hwf2, ?_⟩
        intro q hq
        exact hwf3 q (List.mem_of_mem_filter hq)
      have hcapk : capInv { db with roomParticipants :=
          db.roomParticipants.filter (fun p => decide (p.id ≠ part.id)) } := by
        intro r hr
        have hsub : List.Sublist
            ((db.roomParticipants.filter (fun p => decide (p.id ≠ part.id))).filter
              (fun p => decide (p.roomId = r.id)))
            (db.roomParticipants.filter (fun p => decide (p.roomId = r.id))) :=
          List.Sublist.filter _ (List.filter_sublist _)
        have hlen := hsub.length_le
        have := hcap r hr
        rw [roomParts] at this
        show ((((db.roomParticipants.filter (fun p => decide (p.id ≠ part.id))).filter
          (fun p => decide (p.roomId = r.id))).length : Int)) ≤ r.maxParticipants
        omega
      exact wf_capInv_patchRooms _ roomId .completed hwfk hcapk
  | submitVote roomId movieId pid vt now =>
    obtain ⟨hwf1, hwf2, hwf3⟩ := hwf
    rcases submitVote_db db roomId movieId pid vt now with heq | ⟨room, _, _, heq⟩ |
      ⟨x, heq⟩ | heq
    · rw [applyOp, heq]
      exact ⟨⟨hwf1, hwf2, hwf3⟩, hcap⟩
    · rw [applyOp, heq]
      exact wf_capInv_patchRooms db room.id .expired ⟨hwf1, hwf2, hwf3⟩ hcap
    · rw [applyOp, heq]
      exact ⟨⟨hwf1, hwf2, hwf3⟩, hcap⟩
    · rw [applyOp, heq]
      refine ⟨⟨?_, hwf2, ?_⟩, ?_⟩
      · intro r hr
        have := hwf1 r hr
        show r.id < db.nextId + 1
        omega
      · intro q hq
        have := hwf3 q hq
        show q.roomId < db.nextId + 1
        omega
      · intro r hr
        exact hcap r hr
  | markVotingCompletePresence roomId pid now =>
    rcases markVotingCompletePresence_db db roomId pid now with heq | ⟨part, heq⟩
    · rw [applyOp, heq]
      exact ⟨hwf, hcap⟩
    · rw [applyOp, heq]
      exact wf_capInv_patchCompletion db part.id (some now) hwf hcap
  | markVotingCompleteVoting roomId pid now =>
    rcases markVotingCompleteVoting_db db roomId pid now with heq | ⟨part, heq⟩
    · rw [applyOp, heq]
      exact ⟨hwf, hcap⟩
    · rw [applyOp, heq]
      exact wf_capInv_patchCompletion db part.id (some now) hwf hcap
  | resetVotingCompletion roomId pid =>
    rcases resetVotingCompletion_db db roomId pid with heq | ⟨part, heq⟩
    · rw [applyOp, heq]
      exact ⟨hwf, hcap⟩
    · rw [applyOp, heq]
      exact wf_capInv_patchCompletion db part.id none hwf hcap

theorem wf_capInv_runOps (db : DB) (ops : List Op) (hgood : ∀ op ∈ ops, op.goodCreate)
    (hwf : db.wf) (hcap : capInv db) : (runOps db ops).wf ∧ capInv (runOps db ops) := by
  induction ops generalizing db with
  | nil => exact ⟨hwf, hcap⟩
  | cons op ops ih =>
    have h1 := wf_capInv_applyOp db op (hgood op (List.mem_cons_self op ops)) hwf hcap
    exact ih (applyOp db op) (fun o ho => hgood o (List.mem_cons_of_mem _ ho)) h1.1 h1.2

theorem DB.empty_wf : DB.empty.wf := by
  refine ⟨?_, ?_, ?_⟩ <;> simp [DB.empty]

theorem capInv_empty : capInv DB.empty := by
  intro r hr
  cases hr

/-- `joinRoom` at capacity (on a live room, by a fresh participant)
fails with `RoomFullError` and writes nothing. -/
theorem joinRoom_full (db : DB) (roomId : Nat) (pid : String) (now : Int) (room : Room)
    (hfind : findRoom db roomId = some room)
    (hactive : room.status = .active)
    (hlive : ¬ room.expiresAt < now)
    (hnopart : findParticipant db roomId pid = none)
    (hfull : room.maxParticipants ≤ ((roomParts db roomId).length : Int)) :
    joinRoom db roomId pid now = (.error .roomFull, db) := by
  have hstat : ¬ room.status ≠ Status.active := by simp [hactive]
  simp only [joinRoom, hfind, hstat, if_false, hlive, if_neg, hnopart, hfull, if_pos,
    if_true]

/-- `joinRoomByCode` at capacity fails with `RoomFullError` and writes
nothing. -/
theorem joinRoomByCode_full (db : DB) (code : String) (pid : String) (now : Int)
    (room : Room)
    (hfind : db.rooms.find? (fun r => decide (r.code = code)) = some room)
    (hactive : room.status = .active)
    (hlive : ¬ room.expiresAt < now)
    (hnopart : findParticipant db room.id pid = none)
    (hfull : room.maxParticipants ≤ ((roomParts db room.id).length : Int)) :
    joinRoomByCode db code pid now = (.error .roomFull, db) := by
  have hstat : ¬ room.status ≠ Status.active := by simp [hactive]
  simp only [joinRoomByCode, hfind, hstat, if_false, hlive, if_neg, hnopart, hfull,
    if_pos, if_true]

instance (op : Op) : Decidable op.goodCreate := by
  cases op with
  | createRoom c h mp gen now => exact inferInstanceAs (Decidable (1 ≤ mp.getD 10))
  | joinRoom r p n => exact inferInstanceAs (Decidable True)
  | joinRoomByCode r p n => exact inferInstanceAs (Decidable True)
  | leaveRoom r p => exact inferInstanceAs (Decidable True)
  | submitVote a b s d e => exact inferInstanceAs (Decidable True)
  | markVotingCompletePresence a b t => exact inferInstanceAs (Decidable True)
  | markVotingCompleteVoting a b t => exact inferInstanceAs (Decidable True)
  | resetVotingCompletion a b => exact inferInstanceAs (Decidable True)

/-! ## Claim C4 -/

/-- C4 (amended): after any sequence of calls from the empty store in
which every `createRoom` call's `maxParticipants` (defaulted to 10) is
at least 1, every room's membership count is at most its
`maxParticipants`; and a join that reaches the capacity check on a full
room fails with `RoomFullError` and inserts nothing.  (`createRoom`
inserts the host unconditionally, so a `maxParticipants` below 1 breaks
the invariant at creation — see the counterexample.) -/
theorem C4_capacity_amended :
    (∀ ops : List Op, (∀ op ∈ ops, op.goodCreate) →
      ∀ r ∈ (runOps DB.empty ops).rooms,
        ((roomParts (runOps DB.empty ops) r.id).length : Int) ≤ r.maxParticipants) ∧
    (∀ (db : DB) (roomId : Nat) (pid : String) (now : Int) (room : Room),
      findRoom db roomId = some room → room.status = .active → ¬ room.expiresAt < now →
      findParticipant db roomId pid = none →
      room.maxParticipants ≤ ((roomParts db roomId).length : Int) →
      joinRoom db roomId pid now = (.error .roomFull, db)) ∧
    (∀ (db : DB) (code : String) (pid : String) (now : Int) (room : Room),
      db.rooms.find? (fun r => decide (r.code = code)) = some room →
      room.status = .active → ¬ room.expiresAt < now →
      findParticipant db room.id pid = none →
      room.maxParticipants ≤ ((roomParts db room.id).length : Int) →
      joinRoomByCode db code pid now = (.error .roomFull, db)) := by
  refine ⟨?_, joinRoom_full, joinRoomByCode_full⟩
  intro ops hgood
  exact (wf_capInv_runOps DB.empty ops hgood DB.empty_wf capInv_empty).2

/-- C4 counterexample: a single `createRoom` call with
`maxParticipants = 0` produces a room whose membership count (1, the
host) exceeds its `maxParticipants` — the invariant does not hold "for
every value of the optional maxParticipants argument". -/
theorem C4_counterexample :
    ∃ r ∈ (runOps DB.empty [Op.createRoom "action" "h" (some 0) (fun _ => "1000") 0]).rooms,
      ¬ ((roomParts (runOps DB.empty
          [Op.createRoom "action" "h" (some 0) (fun _ => "1000") 0]) r.id).length : Int) ≤
        r.maxParticipants := by decide

/-- Sequence for the C4 witness: a room capped at 1 whose host joins at
creation. -/
def c4ops : List Op := [Op.createRoom "action" "h" (some 1) (fun _ => "1000") 0]

/-- The store after `c4ops`. -/
def c4dbfull : DB := runOps DB.empty c4ops

/-- The stored room of `c4dbfull`. -/
def c4room : Room := ⟨0, "1000", "action", "h", .active, 86400000, 1, 0⟩

/-- Witness for C4 at concrete inputs: the capacity invariant after
`c4ops`, and a second join on the (full) single-seat room failing with
`RoomFullError` both by id and by code. -/
theorem C4_capacity_amended_witness :
    ((∀ op ∈ c4ops, op.goodCreate) ∧
      ∀ r ∈ (runOps DB.empty c4ops).rooms,
        ((roomParts (runOps DB.empty c4ops) r.id).length : Int) ≤ r.maxParticipants) ∧
    (joinRoom c4dbfull 0 "q" 5 = (.error .roomFull, c4dbfull)) ∧
    (joinRoomByCode c4dbfull "1000" "q" 5 = (.error .roomFull, c4dbfull)) :=
  ⟨⟨by decide, C4_capacity_amended.1 c4ops (by decide)⟩,
   C4_capacity_amended.2.1 c4dbfull 0 "q" 5 c4room (by decide) (by decide) (by decide)
     (by decide) (by decide),
   C4_capacity_amended.2.2 c4dbfull "1000" "q" 5 c4room (by decide) (by decide)
     (by decide) (by decide) (by decide)⟩

/-! ## Claim C6: status monotonicity -/

/-- Forward order on statuses: `active` before `expired` before
`completed`. -/
def statusRank : Status → Nat
  | .active => 0
  | .expired => 1
  | .completed => 2

theorem statusRank_le_two (s : Status) : statusRank s ≤ 2 := by
  cases s <;> simp [statusRank]

theorem eq_completed_of_two_le {s : Status} (h : 2 ≤ statusRank s) : s = .completed := by
  cases s <;> simp_all [statusRank]

theorem ne_active_of_one_le {s : Status} (h : 1 ≤ statusRank s) : s ≠ .active := by
  cases s <;> simp_all [statusRank]

theorem one_le_of_ne_active {s : Status} (h : s ≠ .active) : 1 ≤ statusRank s := by
  cases s <;> simp_all [statusRank]

theorem wf_patchRooms (db : DB) (i : Nat) (s : Status) (hwf : db.wf) :
    DB.wf { db with rooms := patchRoomStatus db.rooms i s } := by
  obtain ⟨hwf1, hwf2, hwf3⟩ := hwf
  refine ⟨?_, ?_, hwf3⟩
  · intro r' hr'
    obtain ⟨r, hr, hcase⟩ := mem_patchRoomStatus hr'
    have hid : r'.id = r.id := by rcases hcase with rfl | ⟨_, rfl⟩ <;> rfl
    show r'.id < db.nextId
    rw [hid]
    exact hwf1 r hr
  · show ((patchRoomStatus db.rooms i s).map Room.id).Nodup
    rw [patchRoomStatus_map_id]
    exact hwf2

theorem wf_applyOp (db : DB) (op : Op) (hwf : db.wf) : (applyOp db op).wf := by
  obtain ⟨hwf1, hwf2, hwf3⟩ := hwf
  cases op with
  | createRoom c h mp gen now =>
    rcases createRoom_db db c h mp gen now with heq | ⟨code, hfree, heq⟩
    · rw [applyOp, heq]
      exact ⟨hwf1, hwf2, hwf3⟩
    · rw [applyOp, heq]
      refine ⟨?_, ?_, ?_⟩
      · intro r hr
        replace hr : r ∈ db.rooms ++ [(⟨db.nextId, code, c, h, .active,
          now + 24 * 60 * 60 * 1000, mp.getD 10, now⟩ : Room)] := hr
        rw [List.mem_append] at hr
        show r.id < db.nextId + 2
        rcases hr with hr | hr
        · have := hwf1 r hr
          omega
        · rw [List.mem_singleton] at hr
          subst hr
          show db.nextId < db.nextId + 2
          omega
      · show ((db.rooms ++ [(⟨db.nextId, code, c, h, .active,
          now + 24 * 60 * 60 * 1000, mp.getD 10, now⟩ : Room)]).map Room.id).Nodup
        rw [List.map_append, List.nodup_append]
        refine ⟨hwf2, List.nodup_singleton _, ?_⟩
        intro i hi hi'
        simp only [List.map_cons, List.map_nil, List.mem_singleton] at hi'
        obtain ⟨r, hr, rfl⟩ := List.mem_map.mp hi
        have := hwf1 r hr
        rw [hi'] at this
        exact Nat.lt_irrefl _ this
      · intro q hq
        replace hq : q ∈ db.roomParticipants ++
          [(⟨db.nextId + 1, db.nextId, h, now, none⟩ : RoomParticipant)] := hq
        rw [List.mem_append] at hq
        show q.roomId < db.nextId + 2
        rcases hq with hq | hq
        · have := hwf3 q hq
          omega
        · rw [List.mem_singleton] at hq
          subst hq
          show db.nextId < db.nextId + 2
          omega
  | joinRoom roomId pid now =>
    rcases joinRoom_db db roomId pid now with heq | ⟨room, hfind, _, heq⟩ |
      ⟨room, hfind, _, _, heq⟩
    · rw [applyOp, heq]
      exact ⟨hwf1, hwf2, hwf3⟩
    · rw [applyOp, heq]
      exact wf_patchRooms db room.id .expired ⟨hwf1, hwf2, hwf3⟩
    · rw [applyOp, heq]
      obtain ⟨hmem, hid⟩ := findRoom_mem hfind
      refine ⟨?_, hwf2, ?_⟩
      · intro r hr
        have := hwf1 r hr
        show r.id < db.nextId + 1
        omega
      · intro q hq
        replace hq : q ∈ db.roomParticipants ++
          [(⟨db.nextId, roomId, pid, now, none⟩ : RoomParticipant)] := hq
        rw [List.mem_append] at hq
        show q.roomId < db.nextId + 1
        rcases hq with hq | hq
        · have := hwf3 q hq
          omega
        · rw [List.mem_singleton] at hq
          subst hq
          show roomId < db.nextId + 1
          have := hwf1 room hmem
          omega
  | joinRoomByCode code pid now =>
    rcases joinRoomByCode_db db code pid now with heq | ⟨room, hfind, _, heq⟩ |
      ⟨room, hfind, _, _, heq⟩
    · rw [applyOp, heq]
      exact ⟨hwf1, hwf2, hwf3⟩
    · rw [applyOp, heq]
      exact wf_patchRooms db room.id .expired ⟨hwf1, hwf2, hwf3⟩
    · rw [applyOp, heq]
      obtain ⟨hmem, _⟩ := findByCode_mem hfind
      refine ⟨?_, hwf2, ?_⟩
      · intro r hr
        have := hwf1 r hr
        show r.id < db.nextId + 1
        omega
      · intro q hq
        replace hq : q ∈ db.roomParticipants ++
          [(⟨db.nextId, room.id, pid, now, none⟩ : RoomParticipant)] := hq
        rw [List.mem_append] at hq
        show q.roomId < db.nextId + 1
        rcases hq with hq | hq
        · have := hwf3 q hq
          omega
        · rw [List.mem_singleton] at hq
          subst hq
          show room.id < db.nextId + 1
          have := hwf1 room hmem
          omega
  | leaveRoom roomId pid =>
    rcases leaveRoom_db db roomId pid with heq | ⟨part, keep, hkeep, heq | heq⟩
    · rw [applyOp, heq]
      exact ⟨hwf1, hwf2, hwf3⟩
    all_goals rw [applyOp, heq]
    all_goals subst hkeep
    · exact ⟨hwf1, hwf2, fun q hq => hwf3 q (List.mem_of_mem_filter hq)⟩
    · have hwfk : DB.wf { db with roomParticipants :=
          db.roomParticipants.filter (fun p => decide (p.id ≠ part.id)) } :=
        ⟨hwf1, hwf2, fun q hq => hwf3 q (List.mem_of_mem_filter hq)⟩
      exact wf_patchRooms _ roomId .completed hwfk
  | submitVote roomId movieId pid vt now =>
    rcases submitVote_db db roomId movieId pid vt now with heq | ⟨room, _, _, heq⟩ |
      ⟨x, heq⟩ | heq
    · rw [applyOp, heq]
      exact ⟨hwf1, hwf2, hwf3⟩
    · rw [applyOp, heq]
      exact wf_patchRooms db room.id .expired ⟨hwf1, hwf2, hwf3⟩
    · rw [applyOp, heq]
      exact ⟨hwf1, hwf2, hwf3⟩
    · rw [applyOp, heq]
      refine ⟨?_, hwf2, ?_⟩
      · intro r hr
        have := hwf1 r hr
        show r.id < db.nextId + 1
        omega
      · intro q hq
        have := hwf3 q hq
        show q.roomId < db.nextId + 1
        omega
  | markVotingCompletePresence roomId pid now =>
    rcases markVotingCompletePresence_db db roomId pid now with heq | ⟨part, heq⟩
    · rw [applyOp, heq]
      exact ⟨hwf1, hwf2, hwf3⟩
    · rw [applyOp, heq]
      refine ⟨hwf1, hwf2, ?_⟩
      intro q hq
      obtain ⟨p, hp, hroom⟩ := mem_patchCompletion_roomId hq
      show q.roomId < db.nextId
      rw [hroom]
      exact hwf3 p hp
  | markVotingCompleteVoting roomId pid now =>
    rcases markVotingCompleteVoting_db db roomId pid now with heq | ⟨part, heq⟩
    · rw [applyOp, heq]
      exact ⟨hwf1, hwf2, hwf3⟩
    · rw [applyOp, heq]
      refine ⟨hwf1, hwf2, ?_⟩
      intro q hq
      obtain ⟨p, hp, hroom⟩ := mem_patchCompletion_roomId hq
      show q.roomId < db.nextId
      rw [hroom]
      exact hwf3 p hp
  | resetVotingCompletion roomId pid =>
    rcases resetVotingCompletion_db db roomId pid with heq | ⟨part, heq⟩
    · rw [applyOp, heq]
      exact ⟨hwf1, hwf2, hwf3⟩
    · rw [applyOp, heq]
      refine ⟨hwf1, hwf2, ?_⟩
      intro q hq
      obtain ⟨p, hp, hroom⟩ := mem_patchCompletion_roomId hq
      show q.roomId < db.nextId
      rw [hroom]
      exact hwf3 p hp

/-- Status change of one call, room by room: a call never deletes a
room; it keeps each room's status except that the expiry path moves an
`active` room to `expired`, and `leaveRoom` may move an emptied room to
`completed`. -/
theorem status_applyOp (db : DB) (op : Op) (hwf : db.wf) :
    ∀ r ∈ db.rooms, ∃ r' ∈ (applyOp db op).rooms, r'.id = r.id ∧
      statusRank r.status ≤ statusRank r'.status ∧
      (¬ op.isLeave → (r'.status = r.status ∨ (r.status = .active ∧ r'.status = .expired))) := by
  obtain ⟨hwf1, hwf2, hwf3⟩ := hwf
  have hexpiry : ∀ (room : Room), room ∈ db.rooms → room.status = .active →
      ∀ r ∈ db.rooms, ∃ r' ∈ patchRoomStatus db.rooms room.id .expired, r'.id = r.id ∧
        statusRank r.status ≤ statusRank r'.status ∧
        (r'.status = r.status ∨ (r.status = .active ∧ r'.status = .expired)) := by
    intro room hmem hactive r hr
    refine ⟨if r.id = room.id then { r with status := .expired } else r,
      patchRoomStatus_mem_of_mem hr, ?_, ?_, ?_⟩
    · by_cases h : r.id = room.id
      · rw [if_pos h]
      · rw [if_neg h]
    · by_cases h : r.id = room.id
      · rw [if_pos h]
        have hreq : r = room := List.inj_on_of_nodup_map hwf2 hr hmem h
        have hract : r.status = .active := by rw [hreq, hactive]
        rw [hract]
        show statusRank .active ≤ statusRank .expired
        simp [statusRank]
      · rw [if_neg h]
    · by_cases h : r.id = room.id
      · right
        have hreq : r = room := List.inj_on_of_nodup_map hwf2 hr hmem h
        refine ⟨by rw [hreq, hactive], ?_⟩
        rw [if_pos h]
      · left
        rw [if_neg h]
  cases op with
  | createRoom c h mp gen now =>
    rcases createRoom_db db c h mp gen now with heq | ⟨code, _, heq⟩
    · rw [applyOp, heq]
      exact fun r hr => ⟨r, hr, rfl, Nat.le_refl _, fun _ => Or.inl rfl⟩
    · rw [applyOp, heq]
      intro r hr
      refine ⟨r, ?_, rfl, Nat.le_refl _, fun _ => Or.inl rfl⟩
      show r ∈ db.rooms ++ _
      exact List.mem_append_left _ hr
  | joinRoom roomId pid now =>
    rcases joinRoom_db db roomId pid now with heq | ⟨room, hfind, hactive, heq⟩ |
      ⟨room, _, _, _, heq⟩
    · rw [applyOp, heq]
      exact fun r hr => ⟨r, hr, rfl, Nat.le_refl _, fun _ => Or.inl rfl⟩
    · rw [applyOp, heq]
      intro r hr
      obtain ⟨r', hr', h1, h2, h3⟩ :=
        hexpiry room (findRoom_mem hfind).1 hactive r hr
      exact ⟨r', hr', h1, h2, fun _ => h3⟩
    · rw [applyOp, heq]
      exact fun r hr => ⟨r, hr, rfl, Nat.le_refl _, fun _ => Or.inl rfl⟩
  | joinRoomByCode code pid now =>
    rcases joinRoomByCode_db db code pid now with heq | ⟨room, hfind, hactive, heq⟩ |
      ⟨room, _, _, _, heq⟩
    · rw [applyOp, heq]
      exact fun r hr => ⟨r, hr, rfl, Nat.le_refl _, fun _ => Or.inl rfl⟩
    · rw [applyOp, heq]
      intro r hr
      obtain ⟨r', hr', h1, h2, h3⟩ :=
        hexpiry room (findByCode_mem hfind).1 hactive r hr
      exact ⟨r', hr', h1, h2, fun _ => h3⟩
    · rw [applyOp, heq]
      exact fun r hr => ⟨r, hr, rfl, Nat.le_refl _, fun _ => Or.inl rfl⟩
  | leaveRoom roomId pid =>
    rcases leaveRoom_db db roomId pid with heq | ⟨part, keep, hkeep, heq | heq⟩
    · rw [applyOp, heq]
      exact fun r hr => ⟨r, hr, rfl, Nat.le_refl _, fun _ => Or.inl rfl⟩
    all_goals rw [applyOp, heq]
    · exact fun r hr => ⟨r, hr, rfl, Nat.le_refl _, fun _ => Or.inl rfl⟩
    · intro r hr
      refine ⟨if r.id = roomId then { r with status := .completed } else r,
        patchRoomStatus_mem_of_mem hr, ?_, ?_, ?_⟩
      · by_cases h : r.id = roomId
        · rw [if_pos h]
        · rw [if_neg h]
      · by_cases h : r.id = roomId
        · rw [if_pos h]
          show statusRank r.status ≤ statusRank .completed
          exact statusRank_le_two _
        · rw [if_neg h]
      · intro hn
        exact absurd trivial hn
  | submitVote roomId movieId pid vt now =>
    rcases submitVote_db db roomId movieId pid vt now with heq |
      ⟨room, hfind, hactive, heq⟩ | ⟨x, heq⟩ | heq
    · rw [applyOp, heq]
      exact fun r hr => ⟨r, hr, rfl, Nat.le_refl _, fun _ => Or.inl rfl⟩
    · rw [applyOp, heq]
      intro r hr
      obtain ⟨r', hr', h1, h2, h3⟩ :=
        hexpiry room (findRoom_mem hfind).1 hactive r hr
      exact ⟨r', hr', h1, h2, fun _ => h3⟩
    · rw [applyOp, heq]
      exact fun r hr => ⟨r, hr, rfl, Nat.le_refl _, fun _ => Or.inl rfl⟩
    · rw [applyOp, heq]
      exact fun r hr => ⟨r, hr, rfl, Nat.le_refl _, fun _ => Or.inl rfl⟩
  | markVotingCompletePresence roomId pid now =>
    rcases markVotingCompletePresence_db db roomId pid now with heq | ⟨part, heq⟩ <;>
      rw [applyOp, heq] <;>
      exact fun r hr => ⟨r, hr, rfl, Nat.le_refl _, fun _ => Or.inl rfl⟩
  | markVotingCompleteVoting roomId pid now =>
    rcases markVotingCompleteVoting_db db roomId pid now with heq | ⟨part, heq⟩ <;>
      rw [applyOp, heq] <;>
      exact fun r hr => ⟨r, hr, rfl, Nat.le_refl _, fun _ => Or.inl rfl⟩
  | resetVotingCompletion roomId pid =>
    rcases resetVotingCompletion_db db roomId pid with heq | ⟨part, heq⟩ <;>
      rw [applyOp, heq] <;>
      exact fun r hr => ⟨r, hr, rfl, Nat.le_refl _, fun _ => Or.inl rfl⟩

theorem status_runOps (db : DB) (ops : List Op) (hwf : db.wf) :
    ∀ r ∈ db.rooms, ∃ r' ∈ (runOps db ops).rooms, r'.id = r.id ∧
      statusRank r.status ≤ statusRank r'.status := by
  induction ops generalizing db with
  | nil => exact fun r hr => ⟨r, hr, rfl, Nat.le_refl _⟩
  | cons op ops ih =>
    intro r hr
    obtain ⟨r1, hr1, hid1, hrank1, _⟩ := status_applyOp db op hwf r hr
    obtain ⟨r2, hr2, hid2, hrank2⟩ := ih (applyOp db op) (wf_applyOp db op hwf) r1 hr1
    exact ⟨r2, hr2, hid2.trans hid1, Nat.le_trans hrank1 hrank2⟩

/-- C6 (amended): statuses move only forward along
`active → expired → completed`.  Per call: every operation other than
`leaveRoom` either keeps a room's status or moves an `active` room to
`expired`; `leaveRoom` may additionally move a room (even an `expired`
one) to `completed`.  Per sequence: a `completed` room stays
`completed`, and a room that has left `active` never returns to it.
The original claim fails because `leaveRoom` patches an emptied room to
`completed` without checking its stored status, so an `expired` room's
status can still change — see the counterexample. -/
theorem C6_status_monotonic_amended :
    (∀ (db : DB) (op : Op), db.wf → ∀ r ∈ db.rooms,
      ∃ r' ∈ (applyOp db op).rooms, r'.id = r.id ∧
        statusRank r.status ≤ statusRank r'.status ∧
        (¬ op.isLeave → (r'.status = r.status ∨
          (r.status = .active ∧ r'.status = .expired)))) ∧
    (∀ (db : DB) (ops : List Op), db.wf → ∀ r ∈ db.rooms,
      ∃ r' ∈ (runOps db ops).rooms, r'.id = r.id ∧
        (r.status = .completed → r'.status = .completed) ∧
        (r.status ≠ .active → r'.status ≠ .active)) := by
  refine ⟨status_applyOp, ?_⟩
  intro db ops hwf r hr
  obtain ⟨r', hr', hid, hrank⟩ := status_runOps db ops hwf r hr
  refine ⟨r', hr', hid, ?_, ?_⟩
  · intro hc
    rw [hc] at hrank
    exact eq_completed_of_two_le hrank
  · intro hne
    exact ne_active_of_one_le (Nat.le_trans (one_le_of_ne_active hne) hrank)

/-- C6 counterexample: create a room (host joins), let a later join
persist `status = expired`, then let the host leave: `leaveRoom`
patches the emptied room to `completed`, changing a stored `expired`
status — refuting "once a room's stored status is completed or expired,
no operation sets it to any different status". -/
theorem C6_counterexample :
    ((runOps DB.empty [Op.createRoom "action" "h" none (fun _ => "1000") 0,
        Op.joinRoom 0 "q" 86400001]).rooms.map Room.status = [.expired]) ∧
    ((runOps DB.empty [Op.createRoom "action" "h" none (fun _ => "1000") 0,
        Op.joinRoom 0 "q" 86400001, Op.leaveRoom 0 "h"]).rooms.map Room.status =
      [.completed]) := by decide

/-- Witness for C6 at a concrete store: a completed room and an expired
room, with `markVotingComplete` applied, keep their statuses. -/
def c6db : DB :=
  { rooms := [⟨0, "1000", "action", "h", .completed, 1000, 10, 0⟩,
      ⟨1, "2000", "action", "h", .expired, 1000, 10, 0⟩],
    roomParticipants := [⟨2, 0, "h", 0, none⟩],
    votes := [], movies := [], nextId := 3 }

theorem C6_status_monotonic_amended_witness :
    c6db.wf ∧
    (∃ r' ∈ (applyOp c6db (Op.markVotingCompleteVoting 0 "h" 9)).rooms,
      r'.id = 0 ∧ statusRank Status.completed ≤ statusRank r'.status ∧
      (¬ (Op.markVotingCompleteVoting 0 "h" 9).isLeave →
        (r'.status = Status.completed ∨
          (Status.completed = .active ∧ r'.status = .expired)))) ∧
    (∃ r' ∈ (runOps c6db [Op.joinRoom 1 "q" 50, Op.leaveRoom 0 "h"]).rooms,
      r'.id = 1 ∧ (Status.expired = .completed → r'.status = .completed) ∧
      (Status.expired ≠ .active → r'.status ≠ .active)) := by
  have hwf : c6db.wf := by
    refine ⟨?_, ?_, ?_⟩ <;> decide
  refine ⟨hwf, ?_, ?_⟩
  · have h := C6_status_monotonic_amended.1 c6db (Op.markVotingCompleteVoting 0 "h" 9)
      hwf ⟨0, "1000", "action", "h", .completed, 1000, 10, 0⟩ (by decide)
    obtain ⟨r', hr', h1, h2, h3⟩ := h
    exact ⟨r', hr', h1, h2, h3⟩
  · have h := C6_status_monotonic_amended.2 c6db [Op.joinRoom 1 "q" 50, Op.leaveRoom 0 "h"]
      hwf ⟨1, "2000", "action", "h", .expired, 1000, 10, 0⟩ (by decide)
    obtain ⟨r', hr', h1, h2, h3⟩ := h
    exact ⟨r', hr', h1, h2, h3⟩

/-! ## Claim C5: room-code generation and uniqueness -/

theorem hasCode_eq_false_iff (rooms : List Room) (code : String) :
    hasCode rooms code = false ↔ code ∉ rooms.map Room.code := by
  rw [hasCode, List.any_eq_false]
  constructor
  · intro hf hmem
    obtain ⟨r, hr, hrc⟩ := List.mem_map.mp hmem
    exact hf r hr (by simp [hrc])
  · intro hnm r hr
    simp only [decide_eq_true_eq]
    intro hc
    exact hnm (List.mem_map.mpr ⟨r, hr, hc⟩)

theorem createRoom_fail_iff (db : DB) (c h : String) (mp : Option Int)
    (gen : Nat → String) (now : Int) :
    createRoom db c h mp gen now = (.error .roomCreationError, db) ↔
      ∀ i, i < 10 → hasCode db.rooms (gen i) = true := by
  constructor
  · intro heq
    have h10 : (codeLoop db.rooms gen 10 (gen 0) 0).2 = 10 := by
      by_contra hne
      rw [createRoom] at heq
      rw [if_neg hne] at heq
      exact absurd (congrArg Prod.fst heq) (by simp)
    have := (codeLoop_fail_iff db.rooms gen 10 0).mp (by rw [h10])
    intro i hi
    exact this i (Nat.zero_le _) (by omega)
  · intro hall
    have h10 : (codeLoop db.rooms gen 10 (gen 0) 0).2 = 10 := by
      have := (codeLoop_fail_iff db.rooms gen 10 0).mpr (fun i _ hi => hall i (by omega))
      rw [this]
    rw [createRoom, if_pos h10]

theorem createRoom_ok_code (db : DB) (c h : String) (mp : Option Int)
    (gen : Nat → String) (now : Int) (ret : Nat × String) (db' : DB)
    (heq : createRoom db c h mp gen now = (.ok ret, db')) :
    hasCode db.rooms ret.2 = false ∧
    db'.rooms.map Room.code = db.rooms.map Room.code ++ [ret.2] := by
  rw [createRoom] at heq
  by_cases h10 : (codeLoop db.rooms gen 10 (gen 0) 0).2 = 10
  · rw [if_pos h10] at heq
    exact absurd (congrArg Prod.fst heq) (by simp)
  · rw [if_neg h10] at heq
    obtain ⟨hle, hfree⟩ := codeLoop_le db.rooms gen 10 0 (gen 0)
    have hfree' := hfree (by omega)
    have h1 : Except.ok ((db.nextId : Nat), (codeLoop db.rooms gen 10 (gen 0) 0).1) =
        (Except.ok ret : Except Err (Nat × String)) := congrArg Prod.fst heq
    have hret : ret = (db.nextId, (codeLoop db.rooms gen 10 (gen 0) 0).1) :=
      (Except.ok.inj h1).symm
    have h2 : ({ db with rooms := db.rooms ++ [(⟨db.nextId, (codeLoop db.rooms gen 10 (gen 0) 0).1, c, h, .active, now + 24 * 60 * 60 * 1000, mp.getD 10, now⟩ : Room)], roomParticipants := db.roomParticipants ++ [(⟨db.nextId + 1, db.nextId, h, now, none⟩ : RoomParticipant)], nextId := db.nextId + 2 } : DB) = db' :=
      congrArg Prod.snd heq
    constructor
    · rw [hret]
      exact hfree'
    · rw [← h2, hret]
      simp

/-- C5: `generateRoomCode` maps a `Math.random()` draw `r ∈ [0,1)` to a
value uniformly in `[1000, 9999]` — each value `k` is produced exactly
for `r` in the length-`1/9000` interval `[(k-1000)/9000, (k-999)/9000)`;
`createRoom` retries on collision and fails with `RoomCreationError`
(writing nothing) exactly when all 10 examined codes collide with
stored codes; on success the new room's code differs from every other
stored room's code; hence successful sequential `createRoom` calls from
the empty store never produce two rooms with the same code. -/
theorem C5_createRoom_codes :
    (∀ r : ℚ, 0 ≤ r → r < 1 →
      (1000 ≤ generateRoomCodeVal r ∧ generateRoomCodeVal r ≤ 9999) ∧
      (∀ k : ℤ, 1000 ≤ k → k ≤ 9999 →
        (generateRoomCodeVal r = k ↔
          ((k : ℚ) - 1000) / 9000 ≤ r ∧ r < ((k : ℚ) - 999) / 9000))) ∧
    (∀ (db : DB) (c h : String) (mp : Option Int) (rand : Nat → ℚ) (now : Int),
      createRoom db c h mp (fun i => generateRoomCode (rand i)) now =
          (.error .roomCreationError, db) ↔
        ∀ i, i < 10 → hasCode db.rooms (generateRoomCode (rand i)) = true) ∧
    (∀ (db : DB) (c h : String) (mp : Option Int) (gen : Nat → String) (now : Int)
      (ret : Nat × String) (db' : DB),
      createRoom db c h mp gen now = (.ok ret, db') →
      ret.2 ∉ db.rooms.map Room.code ∧
      db'.rooms.map Room.code = db.rooms.map Room.code ++ [ret.2]) ∧
    (∀ ops : List Op, (∀ op ∈ ops, op.isCreate) →
      ((runOps DB.empty ops).rooms.map Room.code).Nodup) := by
  refine ⟨?_, ?_, ?_, ?_⟩
  · intro r h0 h1
    constructor
    · constructor
      · rw [generateRoomCodeVal]
        have hle : (1000 : ℚ) ≤ 1000 + r * 9000 := by nlinarith
        calc (1000 : ℤ) = ⌊(1000 : ℚ)⌋ := by norm_num
          _ ≤ ⌊(1000 : ℚ) + r * 9000⌋ := Int.floor_le_floor hle
      · rw [generateRoomCodeVal]
        have hlt : (1000 : ℚ) + r * 9000 < 10000 := by nlinarith
        have := Int.floor_lt.mpr (by exact_mod_cast hlt :
          (1000 : ℚ) + r * 9000 < ((10000 : ℤ) : ℚ))
        omega
    · intro k _ _
      rw [generateRoomCodeVal, Int.floor_eq_iff]
      rw [div_le_iff₀ (by norm_num : (0:ℚ) < 9000), lt_div_iff₀ (by norm_num : (0:ℚ) < 9000)]
      push_cast
      constructor
      · rintro ⟨ha, hb⟩
        constructor <;> linarith
      · rintro ⟨ha, hb⟩
        constructor <;> linarith
  · intro db c h mp rand now
    exact createRoom_fail_iff db c h mp (fun i => generateRoomCode (rand i)) now
  · intro db c h mp gen now ret db' heq
    obtain ⟨hfree, hcodes⟩ := createRoom_ok_code db c h mp gen now ret db' heq
    exact ⟨(hasCode_eq_false_iff db.rooms ret.2).mp hfree, hcodes⟩
  · intro ops hcreate
    suffices hgen : ∀ db : DB, (db.rooms.map Room.code).Nodup →
        ((runOps db ops).rooms.map Room.code).Nodup by
      exact hgen DB.empty (by simp [DB.empty])
    induction ops with
    | nil => exact fun db hnd => hnd
    | cons op ops ih =>
      intro db hnd
      have hop := hcreate op (List.mem_cons_self op ops)
      have hstep : ((applyOp db op).rooms.map Room.code).Nodup := by
        cases op with
        | createRoom c h mp gen now =>
          rcases createRoom_db db c h mp gen now with heq | ⟨code, hfree, heq⟩
          · rw [applyOp, heq]
            exact hnd
          · rw [applyOp, heq]
            show ((db.rooms ++ [(⟨db.nextId, code, c, h, .active,
              now + 24 * 60 * 60 * 1000, mp.getD 10, now⟩ : Room)]).map Room.code).Nodup
            rw [List.map_append, List.nodup_append]
            refine ⟨hnd, List.nodup_singleton _, ?_⟩
            intro s hs hs'
            simp only [List.map_cons, List.map_nil, List.mem_singleton] at hs'
            subst hs'
            exact (hasCode_eq_false_iff db.rooms s).mp hfree hs
        | joinRoom a b n => exact absurd hop (by simp [Op.isCreate])
        | joinRoomByCode a b n => exact absurd hop (by simp [Op.isCreate])
        | leaveRoom a b => exact absurd hop (by simp [Op.isCreate])
        | submitVote a b s d e => exact absurd hop (by simp [Op.isCreate])
        | markVotingCompletePresence a b t => exact absurd hop (by simp [Op.isCreate])
        | markVotingCompleteVoting a b t => exact absurd hop (by simp [Op.isCreate])
        | resetVotingCompletion a b => exact absurd hop (by simp [Op.isCreate])
      exact ih (fun o ho => hcreate o (List.mem_cons_of_mem _ ho)) (applyOp db op) hstep

instance (op : Op) : Decidable op.isCreate := by
  cases op with
  | createRoom c h mp gen now => exact inferInstanceAs (Decidable True)
  | joinRoom r p n => exact inferInstanceAs (Decidable False)
  | joinRoomByCode r p n => exact inferInstanceAs (Decidable False)
  | leaveRoom r p => exact inferInstanceAs (Decidable False)
  | submitVote a b s d e => exact inferInstanceAs (Decidable False)
  | markVotingCompletePresence a b t => exact inferInstanceAs (Decidable False)
  | markVotingCompleteVoting a b t => exact inferInstanceAs (Decidable False)
  | resetVotingCompletion a b => exact inferInstanceAs (Decidable False)

/-- A draw of 0 produces the code string "1000". -/
theorem generateRoomCode_zero : generateRoomCode 0 = "1000" := by
  have h : generateRoomCodeVal 0 = 1000 := by
    rw [generateRoomCodeVal]
    norm_num
  rw [generateRoomCode, h]
  decide

/-- Store holding the single code "1000", for the C5 witness. -/
def c5db : DB :=
  { rooms := [⟨0, "1000", "action", "h", .active, 1000, 10, 0⟩],
    roomParticipants := [⟨1, 0, "h", 0, none⟩], votes := [], movies := [], nextId := 2 }

/-- Two successful create calls for the C5 witness. -/
def c5ops : List Op :=
  [Op.createRoom "action" "h" none (fun _ => "1000") 0,
   Op.createRoom "comedy" "g" none (fun _ => "2000") 0]

/-- Witness for C5 at concrete inputs: the draw 0 yields the in-range
code 1000 with the stated preimage interval; with every draw 0 against
a store already holding "1000" the call fails with `RoomCreationError`
and writes nothing; a successful call's code is fresh and appended; two
sequential creates from the empty store keep codes distinct. -/
theorem C5_createRoom_codes_witness :
    ((0:ℚ) ≤ 0 ∧ (0:ℚ) < 1 ∧
      (1000 ≤ generateRoomCodeVal 0 ∧ generateRoomCodeVal 0 ≤ 9999) ∧
      (generateRoomCodeVal 0 = 1000 ↔
        (((1000 : ℤ) : ℚ) - 1000) / 9000 ≤ 0 ∧ (0:ℚ) < (((1000 : ℤ) : ℚ) - 999) / 9000)) ∧
    (createRoom c5db "a" "h" none (fun i => generateRoomCode ((fun _ => (0:ℚ)) i)) 0 =
      (.error .roomCreationError, c5db)) ∧
    (createRoom c5db "a" "h" none (fun _ => "2000") 0 =
        (.ok ((2 : Nat), "2000"), (createRoom c5db "a" "h" none (fun _ => "2000") 0).2) ∧
      ((2 : Nat), "2000").2 ∉ c5db.rooms.map Room.code ∧
      (createRoom c5db "a" "h" none (fun _ => "2000") 0).2.rooms.map Room.code =
        c5db.rooms.map Room.code ++ [((2 : Nat), "2000").2]) ∧
    ((∀ op ∈ c5ops, op.isCreate) ∧
      ((runOps DB.empty c5ops).rooms.map Room.code).Nodup) :=
  ⟨⟨le_refl 0, by decide, (C5_createRoom_codes.1 0 (le_refl 0) (by decide)).1,
    (C5_createRoom_codes.1 0 (le_refl 0) (by decide)).2 1000 (by decide) (by decide)⟩,
   (C5_createRoom_codes.2.1 c5db "a" "h" none (fun _ => 0) 0).mpr
     (by
       intro i _
       show hasCode c5db.rooms (generateRoomCode 0) = true
       rw [generateRoomCode_zero]
       decide),
   ⟨by decide,
    C5_createRoom_codes.2.2.1 c5db "a" "h" none (fun _ => "2000") 0 (2, "2000")
      ((createRoom c5db "a" "h" none (fun _ => "2000") 0).2) (by decide)⟩,
   ⟨by decide, C5_createRoom_codes.2.2.2 c5ops (by decide)⟩⟩

/-! ## Claims C7 and C8: expiry persistence and lazy expiry reads -/

theorem find?_patchRoomStatus (rooms : List Room) (roomId : Nat) (room : Room) (s : Status)
    (hfind : rooms.find? (fun r => decide (r.id = roomId)) = some room)
    (hid : room.id = roomId) :
    (patchRoomStatus rooms room.id s).find? (fun r => decide (r.id = roomId)) =
      some { room with status := s } := by
  induction rooms with
  | nil => cases hfind
  | cons a rooms ih =>
    rw [patchRoomStatus, List.map_cons]
    by_cases ha : a.id = roomId
    · rw [List.find?_cons_of_pos _ (by simp [ha])] at hfind
      have haeq : a = room := by
        injection hfind
      subst haeq
      rw [List.find?_cons_of_pos _ ?_]
      · rw [if_pos rfl]
      · rw [if_pos rfl]
        simpa using ha
    · rw [List.find?_cons_of_neg _ (by simp [ha])] at hfind
      have hne : a.id ≠ room.id := by
        rw [hid]
        exact ha
      rw [if_neg hne, List.find?_cons_of_neg _ (by simp [ha])]
      exact ih hfind

theorem joinRoom_expired (db : DB) (roomId : Nat) (pid : String) (now : Int) (room : Room)
    (hfind : findRoom db roomId = some room)
    (hactive : room.status = .active)
    (hexp : room.expiresAt < now) :
    joinRoom db roomId pid now =
      (.error .roomExpired, { db with rooms := patchRoomStatus db.rooms room.id .expired }) := by
  have hstat : ¬ room.status ≠ Status.active := by simp [hactive]
  simp only [joinRoom, hfind, hstat, if_false, hexp, if_pos, if_true]

theorem joinRoomByCode_expired (db : DB) (code : String) (pid : String) (now : Int)
    (room : Room)
    (hfind : db.rooms.find? (fun r => decide (r.code = code)) = some room)
    (hactive : room.status = .active)
    (hexp : room.expiresAt < now) :
    joinRoomByCode db code pid now =
      (.error .roomExpired, { db with rooms := patchRoomStatus db.rooms room.id .expired }) := by
  have hstat : ¬ room.status ≠ Status.active := by simp [hactive]
  simp only [joinRoomByCode, hfind, hstat, if_false, hexp, if_pos, if_true]

theorem getRoom_eq_some (db : DB) (roomId : Nat) (now : Int) (room : Room)
    (h : findRoom db roomId = some room) :
    getRoom db roomId now =
      if room.expiresAt < now ∧ room.status = .active then some { room with status := .expired }
      else some room := by
  unfold getRoom
  rw [h]

theorem getRoom_eq_none (db : DB) (roomId : Nat) (now : Int)
    (h : findRoom db roomId = none) : getRoom db roomId now = none := by
  unfold getRoom
  rw [h]

theorem getRoomByCode_eq_some (db : DB) (code : String) (now : Int) (room : Room)
    (h : db.rooms.find? (fun r => decide (r.code = code)) = some room) :
    getRoomByCode db code now =
      if room.expiresAt < now ∧ room.status = .active then some { room with status := .expired }
      else some room := by
  unfold getRoomByCode
  rw [h]

theorem getRoomByCode_eq_none (db : DB) (code : String) (now : Int)
    (h : db.rooms.find? (fun r => decide (r.code = code)) = none) :
    getRoomByCode db code now = none := by
  unfold getRoomByCode
  rw [h]

/-- C7: a join (by id or by code) on a room whose stored status is
`active` and whose `expiresAt` is strictly before the call time
persists `status = expired` on that room, fails with `ExpiredError`,
and inserts no `RoomParticipant` row (the participant and vote tables
of the resulting store are exactly the old ones); a subsequent
`getRoom` — a pure read — returns the room with status `expired`. -/
theorem C7_join_persists_expiry (db : DB) (now now2 : Int) :
    (∀ (roomId : Nat) (pid : String) (room : Room),
      findRoom db roomId = some room → room.status = .active → room.expiresAt < now →
      joinRoom db roomId pid now =
        (.error .roomExpired, { db with rooms := patchRoomStatus db.rooms room.id .expired }) ∧
      getRoom { db with rooms := patchRoomStatus db.rooms room.id .expired } roomId now2 =
        some { room with status := .expired }) ∧
    (∀ (code : String) (pid : String) (room : Room),
      db.rooms.find? (fun r => decide (r.code = code)) = some room →
      room.status = .active → room.expiresAt < now →
      joinRoomByCode db code pid now =
        (.error .roomExpired, { db with rooms := patchRoomStatus db.rooms room.id .expired })) := by
  constructor
  · intro roomId pid room hfind hactive hexp
    refine ⟨joinRoom_expired db roomId pid now room hfind hactive hexp, ?_⟩
    have hid : room.id = roomId := (findRoom_mem hfind).2
    have hfind' : findRoom { db with rooms := patchRoomStatus db.rooms room.id .expired }
        roomId = some { room with status := .expired } :=
      find?_patchRoomStatus db.rooms roomId room .expired hfind hid
    rw [getRoom_eq_some _ _ _ _ hfind']
    rw [if_neg]
    intro ⟨_, hc⟩
    cases hc
  · intro code pid room hfind hactive hexp
    exact joinRoomByCode_expired db code pid now room hfind hactive hexp

/-- Concrete store for the C7 witness: an active room one millisecond
past its expiry. -/
def c7db : DB :=
  { rooms := [⟨0, "1000", "action", "h", .active, 1000, 10, 0⟩],
    roomParticipants := [⟨1, 0, "h", 0, none⟩], votes := [], movies := [], nextId := 2 }

/-- Witness for C7 at `c7db`: joining at time 1001 persists the expiry,
fails with `ExpiredError`, leaves the membership table unchanged, and
`getRoom` then reports `expired`. -/
theorem C7_join_persists_expiry_witness :
    (findRoom c7db 0 = some (⟨0, "1000", "action", "h", .active, 1000, 10, 0⟩ : Room) ∧
      (⟨0, "1000", "action", "h", .active, 1000, 10, 0⟩ : Room).status = .active ∧
      (⟨0, "1000", "action", "h", .active, 1000, 10, 0⟩ : Room).expiresAt < (1001 : Int)) ∧
    (joinRoom c7db 0 "q" 1001 =
      (.error .roomExpired, { c7db with rooms := patchRoomStatus c7db.rooms 0 .expired }) ∧
     getRoom { c7db with rooms := patchRoomStatus c7db.rooms 0 .expired } 0 2000 =
      some (⟨0, "1000", "action", "h", .expired, 1000, 10, 0⟩ : Room)) :=
  ⟨⟨by decide, rfl, by decide⟩,
   (C7_join_persists_expiry c7db 1001 2000).1 0 "q"
     (⟨0, "1000", "action", "h", .active, 1000, 10, 0⟩ : Room) (by decide) rfl (by decide)⟩

/-- C8: `getRoom` and `getRoomByCode` are pure reads of the store (they
are functions of it, embedding handlers that perform no writes).  Each
returns the stored room with `status` overridden to `expired` exactly
when the stored status is `active` and `expiresAt` is strictly before
the current time, and the stored room unchanged otherwise; consequently
neither ever reports `active` for a room strictly past its
`expiresAt`. -/
theorem C8_lazy_expiry_reads (db : DB) (now : Int) :
    (∀ roomId, getRoom db roomId now =
      (findRoom db roomId).map (fun room =>
        if room.expiresAt < now ∧ room.status = .active then { room with status := .expired }
        else room)) ∧
    (∀ code, getRoomByCode db code now =
      (db.rooms.find? (fun r => decide (r.code = code))).map (fun room =>
        if room.expiresAt < now ∧ room.status = .active then { room with status := .expired }
        else room)) ∧
    (∀ roomId room', getRoom db roomId now = some room' →
      ¬ (room'.status = .active ∧ room'.expiresAt < now)) ∧
    (∀ code room', getRoomByCode db code now = some room' →
      ¬ (room'.status = .active ∧ room'.expiresAt < now)) := by
  have hchar : ∀ (room : Room),
      ¬ ((if room.expiresAt < now ∧ room.status = .active then
        { room with status := .expired } else room).status = .active ∧
        (if room.expiresAt < now ∧ room.status = .active then
          { room with status := .expired } else room).expiresAt < now) := by
    intro room
    by_cases hc : room.expiresAt < now ∧ room.status = .active
    · rw [if_pos hc]
      intro ⟨hs, _⟩
      cases hs
    · rw [if_neg hc]
      intro ⟨hs, he⟩
      exact hc ⟨he, hs⟩
  have hg : ∀ roomId, getRoom db roomId now =
      (findRoom db roomId).map (fun room =>
        if room.expiresAt < now ∧ room.status = .active then { room with status := .expired }
        else room) := by
    intro roomId
    cases hfind : findRoom db roomId with
    | none => rw [getRoom_eq_none _ _ _ hfind]; rfl
    | some room =>
      rw [getRoom_eq_some _ _ _ _ hfind, Option.map_some']
      by_cases hc : room.expiresAt < now ∧ room.status = .active
      · rw [if_pos hc, if_pos hc]
      · rw [if_neg hc, if_neg hc]
  have hgc : ∀ code, getRoomByCode db code now =
      (db.rooms.find? (fun r => decide (r.code = code))).map (fun room =>
        if room.expiresAt < now ∧ room.status = .active then { room with status := .expired }
        else room) := by
    intro code
    cases hfind : db.rooms.find? (fun r => decide (r.code = code)) with
    | none => rw [getRoomByCode_eq_none _ _ _ hfind]; rfl
    | some room =>
      rw [getRoomByCode_eq_some _ _ _ _ hfind, Option.map_some']
      by_cases hc : room.expiresAt < now ∧ room.status = .active
      · rw [if_pos hc, if_pos hc]
      · rw [if_neg hc, if_neg hc]
  refine ⟨hg, hgc, ?_, ?_⟩
  · intro roomId room' hsome
    rw [hg roomId] at hsome
    cases hfind : findRoom db roomId with
    | none => rw [hfind] at hsome; cases hsome
    | some room =>
      rw [hfind, Option.map_some'] at hsome
      rw [(Option.some.inj hsome).symm]
      exact hchar room
  · intro code room' hsome
    rw [hgc code] at hsome
    cases hfind : db.rooms.find? (fun r => decide (r.code = code)) with
    | none => rw [hfind] at hsome; cases hsome
    | some room =>
      rw [hfind, Option.map_some'] at hsome
      rw [(Option.some.inj hsome).symm]
      exact hchar room

/-- Concrete store for the C8 witness: an active room past its expiry
and a completed room. -/
def c8db : DB :=
  { rooms := [⟨0, "1000", "action", "h", .active, 1000, 10, 0⟩,
              ⟨1, "2000", "comedy", "g", .completed, 5000, 10, 0⟩],
    roomParticipants := [], votes := [], movies := [], nextId := 2 }

/-- Witness for C8 at `c8db`: the read of the expired-but-active room
follows the override characterization, and the returned room is never
active past its expiry. -/
theorem C8_lazy_expiry_reads_witness :
    (getRoom c8db 0 2000 =
      (findRoom c8db 0).map (fun room =>
        if room.expiresAt < 2000 ∧ room.status = .active then { room with status := .expired }
        else room) ∧
     getRoom c8db 0 2000 = some (⟨0, "1000", "action", "h", .expired, 1000, 10, 0⟩ : Room)) ∧
    ¬ ((⟨0, "1000", "action", "h", .expired, 1000, 10, 0⟩ : Room).status = .active ∧
       (⟨0, "1000", "action", "h", .expired, 1000, 10, 0⟩ : Room).expiresAt < (2000 : Int)) :=
  ⟨⟨(C8_lazy_expiry_reads c8db 2000).1 0, by decide⟩,
   (C8_lazy_expiry_reads c8db 2000).2.2.1 0
     (⟨0, "1000", "action", "h", .expired, 1000, 10, 0⟩ : Room) (by decide)⟩

/-! ## Claim C9: the two markVotingComplete implementations -/

/-- Concrete store refuting C9 as stated: the participant's
`votingCompletedAt` is already set — to `0`. -/
def c9db : DB :=
  { rooms := [⟨0, "1000", "action", "h", .active, 1000, 10, 0⟩],
    roomParticipants := [⟨1, 0, "h", 0, some 0⟩], votes := [], movies := [], nextId := 2 }

/-- C9 counterexample: the participant's `votingCompletedAt` is already
set (to `0`), yet NEITHER implementation rejects — the presence
implementation's guard is JS truthiness of the stored timestamp, which
`0` fails, so it too succeeds and overwrites.  This refutes "for every
participant whose votingCompletedAt is already set, one implementation
rejects the call with an error". -/
theorem C9_counterexample :
    c9db.roomParticipants.map RoomParticipant.votingCompletedAt = [some 0] ∧
    Presence.markVotingComplete c9db 0 "h" 7 =
      (.ok (), { c9db with roomParticipants := [(⟨1, 0, "h", 0, some 7⟩ : RoomParticipant)] }) ∧
    Voting.markVotingComplete c9db 0 "h" 7 =
      (.ok (), { c9db with roomParticipants := [(⟨1, 0, "h", 0, some 7⟩ : RoomParticipant)] }) := by
  decide

/-- C9 (amended): the divergence on double completion holds for nonzero
stored timestamps: when the caller's `votingCompletedAt` is `some t`
with `t ≠ 0`, the presence implementation rejects with an error and
leaves the store unchanged while the voting implementation succeeds and
overwrites the timestamp with the current time; when it is unset, both
set it to the current time and succeed; when it is `some 0` — a falsy
stored timestamp — the presence implementation also succeeds and
overwrites, so on that input the two implementations agree. -/
theorem C9_markVotingComplete_divergence_amended (db : DB) (roomId : Nat) (pid : String)
    (now : Int) (part : RoomParticipant)
    (hfind : findParticipant db roomId pid = some part) :
    (part.votingCompletedAt = none →
      Presence.markVotingComplete db roomId pid now =
        (.ok (), { db with roomParticipants := patchCompletion db.roomParticipants part.id (some now) }) ∧
      Voting.markVotingComplete db roomId pid now =
        (.ok (), { db with roomParticipants := patchCompletion db.roomParticipants part.id (some now) })) ∧
    (∀ t : Int, part.votingCompletedAt = some t → t ≠ 0 →
      Presence.markVotingComplete db roomId pid now = (.error .alreadyCompleted, db) ∧
      Voting.markVotingComplete db roomId pid now =
        (.ok (), { db with roomParticipants := patchCompletion db.roomParticipants part.id (some now) })) ∧
    (part.votingCompletedAt = some 0 →
      Presence.markVotingComplete db roomId pid now =
        (.ok (), { db with roomParticipants := patchCompletion db.roomParticipants part.id (some now) })) := by
  have hvoting : Voting.markVotingComplete db roomId pid now =
      (.ok (), { db with roomParticipants := patchCompletion db.roomParticipants part.id (some now) }) := by
    unfold Voting.markVotingComplete
    rw [hfind]
  refine ⟨?_, ?_, ?_⟩
  · intro hnone
    refine ⟨?_, hvoting⟩
    unfold Presence.markVotingComplete
    cases hp : findParticipant db roomId pid with
    | none => rw [hp] at hfind; cases hfind
    | some p =>
      rw [hp] at hfind
      have he := Option.some.inj hfind
      subst he
      dsimp only
      rw [hnone]
      rfl
  · intro t hst ht
    refine ⟨?_, hvoting⟩
    unfold Presence.markVotingComplete
    cases hp : findParticipant db roomId pid with
    | none => rw [hp] at hfind; cases hfind
    | some p =>
      rw [hp] at hfind
      have he := Option.some.inj hfind
      subst he
      dsimp only
      rw [hst]
      split
      · rfl
      · rename_i hcond
        exact absurd (decide_eq_true ht) hcond
  · intro h0
    unfold Presence.markVotingComplete
    cases hp : findParticipant db roomId pid with
    | none => rw [hp] at hfind; cases hfind
    | some p =>
      rw [hp] at hfind
      have he := Option.some.inj hfind
      subst he
      dsimp only
      rw [h0]
      rfl

/-- Concrete store for the C9 witness: participant already completed at
nonzero time 5. -/
def c9db2 : DB :=
  { rooms := [⟨0, "1000", "action", "h", .active, 1000, 10, 0⟩],
    roomParticipants := [⟨1, 0, "h", 0, some 5⟩], votes := [], movies := [], nextId := 2 }

/-- Witness for C9 (amended) at `c9db2`: the presence implementation
rejects the double completion while the voting implementation
overwrites the timestamp. -/
theorem C9_markVotingComplete_divergence_amended_witness :
    findParticipant c9db2 0 "h" = some (⟨1, 0, "h", 0, some 5⟩ : RoomParticipant) ∧
    (Presence.markVotingComplete c9db2 0 "h" 7 = (.error .alreadyCompleted, c9db2) ∧
     Voting.markVotingComplete c9db2 0 "h" 7 =
       (.ok (), { c9db2 with roomParticipants := patchCompletion c9db2.roomParticipants 1 (some 7) })) :=
  ⟨by decide,
   (C9_markVotingComplete_divergence_amended c9db2 0 "h" 7
      (⟨1, 0, "h", 0, some 5⟩ : RoomParticipant) (by decide)).2.1 5 rfl (by decide)⟩

/-! ## Claim C10: submitVote NotFound errors -/

/-- Concrete store refuting C10 as stated: the movie is absent, but the
room is `completed`. -/
def c10db : DB :=
  { rooms := [⟨0, "1000", "action", "h", .completed, 1000, 10, 0⟩],
    roomParticipants := [⟨1, 0, "h", 0, none⟩], votes := [], movies := [], nextId := 2 }

/-- C10 counterexample: the referenced movie is absent from the store,
yet `submitVote` fails with the room-status error — not a NotFoundError
— because the status guard runs before the movie lookup.  This refutes
"for every submitVote call in which the referenced movie is absent, the
call fails with NotFoundError". -/
theorem C10_counterexample :
    (100 ∉ c10db.movies) ∧
    submitVote c10db 0 100 "h" .like 5 = (.error (.roomNotActive .completed), c10db) ∧
    Err.isNotFoundError (.roomNotActive .completed) = false := by
  decide

/-- C10 (amended): `submitVote` fails with a NotFoundError and writes
nothing when the referenced room is absent; when the referenced movie
is absent it fails with a NotFoundError and writes nothing provided the
earlier guards pass (room present, active, unexpired, caller a
participant); when the movie is absent but an earlier guard fails, that
guard's error is reported instead. -/
theorem C10_submitVote_notFound_amended (db : DB) (roomId movieId : Nat) (pid : String)
    (vt : VoteType) (now : Int) :
    (findRoom db roomId = none →
      submitVote db roomId movieId pid vt now = (.error .roomNotFound, db) ∧
      Err.isNotFoundError .roomNotFound = true) ∧
    (∀ room : Room, findRoom db roomId = some room → room.status = .active →
      ¬ room.expiresAt < now → (findParticipant db roomId pid).isSome →
      movieId ∉ db.movies →
      submitVote db roomId movieId pid vt now = (.error .movieNotFound, db) ∧
      Err.isNotFoundError .movieNotFound = true) := by
  constructor
  · intro hnone
    refine ⟨?_, rfl⟩
    unfold submitVote
    rw [hnone]
  · intro room hfind hactive hexp hpart hmem
    refine ⟨?_, rfl⟩
    have hstat : ¬ room.status ≠ Status.active := by simp [hactive]
    cases hp : findParticipant db roomId pid with
    | none =>
      rw [hp] at hpart
      simp at hpart
    | some part =>
      unfold submitVote
      rw [hfind]
      dsimp only
      rw [if_neg hstat, if_neg hexp, hp]
      dsimp only
      rw [if_neg hmem]

/-- Concrete store for the C10 witness: an active, unexpired room with
one participant, whose movie list is `[2]`. -/
def c10db2 : DB :=
  { rooms := [⟨0, "1000", "action", "h", .active, 1000, 10, 0⟩],
    roomParticipants := [⟨1, 0, "h", 0, none⟩], votes := [], movies := [2], nextId := 3 }

/-- Witness for C10 (amended) at `c10db2`: a vote referencing the
absent room 99 fails with the room NotFoundError, and a vote
referencing the absent movie 100 in the healthy room 0 fails with the
movie NotFoundError; both leave the store unchanged. -/
theorem C10_submitVote_notFound_amended_witness :
    (findRoom c10db2 99 = none ∧
      submitVote c10db2 99 100 "h" .like 500 = (.error .roomNotFound, c10db2)) ∧
    ((100 ∉ c10db2.movies) ∧
      submitVote c10db2 0 100 "h" .like 500 = (.error .movieNotFound, c10db2)) :=
  ⟨⟨by decide,
    ((C10_submitVote_notFound_amended c10db2 99 100 "h" .like 500).1 (by decide)).1⟩,
   ⟨by decide,
    ((C10_submitVote_notFound_amended c10db2 0 100 "h" .like 500).2
      (⟨0, "1000", "action", "h", .active, 1000, 10, 0⟩ : Room)
      (by decide) rfl (by decide) (by decide) (by decide)).1⟩⟩

end MovieZang
